import Mathlib

/-!
Verification development for the arrOSt kernel (kanik0/arrOSt).

This file gives a shallow embedding, in Lean 4, of the parts of the kernel
that the specification talks about:

* `kernel/src/net/mod.rs`: IPv4 next-hop selection (`select_next_hop`,
  `in_same_subnet`);
* `kernel/src/arch/x86_64/pit.rs`: PIT channel-0 programming (`init`);
* `kernel/src/proc/mod.rs`: the pure arms of `Scheduler::dispatch_syscall`
  (`SYS_EXIT`, `SYS_YIELD`, `SYS_SLEEP`) and `wake_sleeping`;
* `kernel/src/mem/mod.rs`: `BumpAllocator` and `BootInfoFrameAllocator`;
* `kernel/src/keyboard.rs`: set-1 scancode decoding and the SPSC queues;
* `kernel/src/fs/diskfs.rs` together with the sector interface of
  `kernel/src/storage/mod.rs`: the fixed-layout block filesystem.

Machine integers (`u8`/`u16`/`u32`/`u64`/`usize`) are embedded as `Nat`;
wherever the Rust code uses a saturating or checked operation, the model
makes the bound explicit (`satAdd64`, `satAdd16`, `satSub16`, `alignUp64`).
Byte buffers and sectors are embedded as `List Nat`.
-/

namespace ArrOst

/-- Largest value of a 64-bit unsigned integer (`u64::MAX`, also `usize::MAX`
on x86-64). -/
def u64Max : Nat := 2 ^ 64 - 1

/-- Largest value of a 16-bit unsigned integer (`u16::MAX`). -/
def u16Max : Nat := 2 ^ 16 - 1

/-- `u64::saturating_add` on the `Nat` embedding. -/
def satAdd64 (a b : Nat) : Nat := min (a + b) u64Max

/-- `u16::saturating_add` on the `Nat` embedding. -/
def satAdd16 (a b : Nat) : Nat := min (a + b) u16Max

/-- `u16::saturating_sub` on the `Nat` embedding (`Nat` subtraction already
truncates at zero, exactly like the Rust saturating subtraction). -/
def satSub16 (a b : Nat) : Nat := a - b

/-- `align_up_u64` / `align_up_usize` from `kernel/src/mem/mod.rs` (the two
functions are textually identical; on x86-64 `usize` is 64 bits wide, so one
embedding serves both).  `checked_add` fails exactly when the mathematical sum
exceeds `u64::MAX`. -/
def alignUp64 (addr align : Nat) : Option Nat :=
  if align = 0 then none
  else
    let remainder := addr % align
    if remainder = 0 then some addr
    else if addr + (align - remainder) ≤ u64Max then some (addr + (align - remainder))
    else none

/-! ## Network: next-hop selection (`kernel/src/net/mod.rs`) -/

/-- An IPv4 address, byte for byte (`[u8; 4]` in the source). -/
structure Ip4 where
  b0 : Nat
  b1 : Nat
  b2 : Nat
  b3 : Nat
deriving DecidableEq, Repr

/-- The all-zero address `0.0.0.0` (`[0; 4]` in the source). -/
def zeroIp : Ip4 := ⟨0, 0, 0, 0⟩

/-- The slice of the interface state that `select_next_hop` reads and writes:
the configured address, netmask and gateway, and the two routing counters
from `NetStats` that the function bumps. -/
structure NetIface where
  ipv4 : Ip4
  netmask : Ip4
  gateway : Ip4
  routeDirect : Nat
  routeGateway : Nat
deriving Repr

/-- `in_same_subnet` from `kernel/src/net/mod.rs`: masked comparison of all
four address bytes. -/
def inSameSubnet (st : NetIface) (other : Ip4) : Prop :=
  st.ipv4.b0 &&& st.netmask.b0 = other.b0 &&& st.netmask.b0 ∧
  st.ipv4.b1 &&& st.netmask.b1 = other.b1 &&& st.netmask.b1 ∧
  st.ipv4.b2 &&& st.netmask.b2 = other.b2 &&& st.netmask.b2 ∧
  st.ipv4.b3 &&& st.netmask.b3 = other.b3 &&& st.netmask.b3

instance (st : NetIface) (other : Ip4) : Decidable (inSameSubnet st other) := by
  unfold inSameSubnet; infer_instance

/-- `select_next_hop` from `kernel/src/net/mod.rs`: returns the destination
itself (direct route) when it is our own address, on our subnet, or when no
gateway is configured; otherwise returns the gateway.  Also bumps the
corresponding saturating statistics counter. -/
def selectNextHop (st : NetIface) (dstIp : Ip4) : Ip4 × NetIface :=
  if dstIp = st.ipv4 ∨ inSameSubnet st dstIp ∨ st.gateway = zeroIp then
    (dstIp, { st with routeDirect := satAdd64 st.routeDirect 1 })
  else
    (st.gateway, { st with routeGateway := satAdd64 st.routeGateway 1 })

/-! ## PIT programming (`kernel/src/arch/x86_64/pit.rs`) -/

/-- The PIT input clock, `PIT_INPUT_HZ`. -/
def PIT_INPUT_HZ : Nat := 1193182

/-- `pit::init` from `kernel/src/arch/x86_64/pit.rs`.  Returns the divisor
together with the list of `(port, byte)` pairs written through `port::outb`,
in order: the mode/command byte on port 0x43 followed by the divisor's low
and high bytes on channel 0 (port 0x40). -/
def pitInit (hz : Nat) : Nat × List (Nat × Nat) :=
  let requestedHz := if hz = 0 then 1 else hz
  let rawDivisor := PIT_INPUT_HZ / requestedHz
  let divisor := min (max rawDivisor 1) 65535
  (divisor, [(0x43, 0x36), (0x40, divisor &&& 0xff), (0x40, (divisor >>> 8) &&& 0xff)])

/-- The divisor formula as the specification words it:
`clamp(1_193_182 / hz, 1, 65535)`, read with the total `Nat` division (which
returns 0 at `hz = 0`, where the Rust formula would have no value at all).
This definition follows the spec text and exists only to be compared with
`pitInit`, which follows the source. -/
def pitClaimDivisor (hz : Nat) : Nat :=
  min (max (PIT_INPUT_HZ / hz) 1) 65535

/-! ## Scheduler: pure syscall arms (`kernel/src/proc/mod.rs`) -/

/-- `TaskState` from `kernel/src/proc/mod.rs`. -/
inductive TaskState where
  | ready : TaskState
  | sleeping (untilTick : Nat) : TaskState
  | exited (code : Int) : TaskState
deriving DecidableEq, Repr

/-- The `SyscallStats` counters touched by the pure arms of
`dispatch_syscall` (`exit`, `yield_now`, `sleep`, `errors`; all
`u64::saturating_add` counters). -/
structure SyscallStats where
  exit : Nat
  yieldNow : Nat
  sleep : Nat
  errors : Nat
deriving DecidableEq, Repr

/-- `SYS_EXIT` from `crates/arrostd`. -/
def SYS_EXIT : Nat := 3
/-- `SYS_YIELD` from `crates/arrostd`. -/
def SYS_YIELD : Nat := 4
/-- `SYS_SLEEP` from `crates/arrostd`. -/
def SYS_SLEEP : Nat := 5

/-- The arms of `Scheduler::dispatch_syscall` that touch only the task state
and the statistics: `SYS_EXIT`, `SYS_YIELD`, `SYS_SLEEP`, and the unknown-
number arm (which bumps `stats.errors` and returns `-38`, ENOSYS).  The arms
for `SYS_WRITE`/`SYS_READ`/`SYS_SOCKET`/`SYS_SENDTO`/`SYS_RECVFROM`
(numbers 1, 2, 6, 7, 8) drive the console and the network stack and are out
of this model's scope, so the embedding returns `none` for them. -/
def dispatchSyscallPure (stats : SyscallStats) (state : TaskState)
    (nowTicks number arg0 : Nat) : Option (SyscallStats × TaskState × Int) :=
  if number = SYS_EXIT then
    some ({ stats with exit := satAdd64 stats.exit 1 }, TaskState.exited (Int.ofNat arg0), 0)
  else if number = SYS_YIELD then
    some ({ stats with yieldNow := satAdd64 stats.yieldNow 1 }, state, 0)
  else if number = SYS_SLEEP then
    let delta := max arg0 1
    some ({ stats with sleep := satAdd64 stats.sleep 1 },
      TaskState.sleeping (satAdd64 nowTicks delta), 0)
  else if number = 1 ∨ number = 2 ∨ number = 6 ∨ number = 7 ∨ number = 8 then
    none
  else
    some ({ stats with errors := satAdd64 stats.errors 1 }, state, -38)

/-- `Scheduler::wake_sleeping` from `kernel/src/proc/mod.rs`, restricted to a
single task: a sleeping task becomes ready exactly when `now_ticks`
has reached its `until_tick`. -/
def wakeSleeping (nowTicks : Nat) (state : TaskState) : TaskState :=
  match state with
  | TaskState.sleeping untilTick =>
      if untilTick ≤ nowTicks then TaskState.ready else TaskState.sleeping untilTick
  | other => other

/-! ## Bump allocator (`kernel/src/mem/mod.rs`) -/

/-- The fields of `core::alloc::Layout` that `BumpAllocator` reads. -/
structure LayoutModel where
  size : Nat
  align : Nat
deriving DecidableEq, Repr

/-- `BumpAllocator` from `kernel/src/mem/mod.rs`. -/
structure BumpAllocator where
  heapStart : Nat
  heapEnd : Nat
  next : Nat
  allocations : Nat
  initialized : Bool
deriving DecidableEq, Repr

/-- `BumpAllocator::init`. -/
def bumpInit (st : BumpAllocator) (heapStart heapSize : Nat) : BumpAllocator :=
  { st with
    heapStart := heapStart
    heapEnd := satAdd64 heapStart heapSize
    next := heapStart
    allocations := 0
    initialized := true }

/-- `BumpAllocator::allocate`.  The returned `Nat` is the pointer value:
0 stands for the null pointer, and the zero-size branch returns
`NonNull::<u8>::dangling()`, whose address is `align_of::<u8>() = 1`. -/
def bumpAllocate (st : BumpAllocator) (layout : LayoutModel) : Nat × BumpAllocator :=
  if !st.initialized then (0, st)
  else if layout.size = 0 then (1, st)
  else
    match alignUp64 st.next layout.align with
    | none => (0, st)
    | some start =>
        if u64Max < start + layout.size then (0, st)
        else
          let stop := start + layout.size
          if st.heapEnd < stop then (0, st)
          else (start, { st with next := stop, allocations := satAdd64 st.allocations 1 })

/-- `BumpAllocator::deallocate`: ignores the pointer, decrements the live
count for a non-zero-size layout, and resets the cursor to the heap base when
the last allocation is released. -/
def bumpDeallocate (st : BumpAllocator) (layout : LayoutModel) : BumpAllocator :=
  if layout.size = 0 ∨ st.allocations = 0 then st
  else
    let remaining := st.allocations - 1
    if remaining = 0 then { st with allocations := 0, next := st.heapStart }
    else { st with allocations := remaining }

/-- The cursor invariant of the bump allocator: `next` lies between
`heap_start` and `heap_end`. -/
def BumpInv (st : BumpAllocator) : Prop :=
  st.heapStart ≤ st.next ∧ st.next ≤ st.heapEnd

instance (st : BumpAllocator) : Decidable (BumpInv st) := by
  unfold BumpInv; infer_instance

/-! ## Keyboard: set-1 scancode decoding (`kernel/src/keyboard.rs`) -/

/-- `KeyCode` from `kernel/src/keyboard.rs`. -/
inductive KeyCode where
  | byte (value : Nat) : KeyCode
  | arrowUp : KeyCode
  | arrowDown : KeyCode
  | arrowLeft : KeyCode
  | arrowRight : KeyCode
deriving DecidableEq, Repr

/-- One SPSC ring queue (`BYTE_QUEUE_*` or `EVENT_QUEUE_*` in the source):
the backing storage indexed by slot, the producer head, the consumer tail,
and the saturating overflow counter. -/
structure KbQueue where
  buf : Nat → Nat
  head : Nat
  tail : Nat
  overflow : Nat

/-- Capacity of both keyboard queues (`BYTE_QUEUE_CAPACITY` and
`EVENT_QUEUE_CAPACITY`). -/
def KB_QUEUE_CAPACITY : Nat := 1024

/-- `push_byte` / `push_key_event`: when advancing the head would meet the
tail the value is dropped and the overflow counter bumped; otherwise the
value lands in the slot at the head. -/
def kbPush (q : KbQueue) (value : Nat) : KbQueue :=
  let nextHead := (q.head + 1) % KB_QUEUE_CAPACITY
  if nextHead = q.tail then { q with overflow := satAdd64 q.overflow 1 }
  else
    { q with
      buf := fun i => if i = q.head then value else q.buf i
      head := nextHead }

/-- The decoder state: the two flag cells plus the two queues. -/
structure KbState where
  shiftPressed : Bool
  extendedFlag : Bool
  byteQueue : KbQueue
  eventQueue : KbQueue

/-- The reset state established by `keyboard::init`. -/
def kbInit : KbState :=
  { shiftPressed := false
    extendedFlag := false
    byteQueue := { buf := fun _ => 0, head := 0, tail := 0, overflow := 0 }
    eventQueue := { buf := fun _ => 0, head := 0, tail := 0, overflow := 0 } }

/-- `shifted_alpha` from `kernel/src/keyboard.rs`. -/
def shiftedAlpha (lowercase : Nat) (shift : Bool) : Nat :=
  if shift then lowercase - 32 else lowercase

/-- `map_set1_scancode` from `kernel/src/keyboard.rs`: the set-1 make-code to
ASCII table (shift-aware). -/
def mapSet1Scancode (scancode : Nat) (shift : Bool) : Option Nat :=
  match scancode with
  | 0x02 => some (if shift then 33 else 49)
  | 0x03 => some (if shift then 64 else 50)
  | 0x04 => some (if shift then 35 else 51)
  | 0x05 => some (if shift then 36 else 52)
  | 0x06 => some (if shift then 37 else 53)
  | 0x07 => some (if shift then 94 else 54)
  | 0x08 => some (if shift then 38 else 55)
  | 0x09 => some (if shift then 42 else 56)
  | 0x0A => some (if shift then 40 else 57)
  | 0x0B => some (if shift then 41 else 48)
  | 0x0C => some (if shift then 95 else 45)
  | 0x0D => some (if shift then 43 else 61)
  | 0x0F => some 9
  | 0x0E => some 8
  | 0x10 => some (shiftedAlpha 113 shift)
  | 0x11 => some (shiftedAlpha 119 shift)
  | 0x12 => some (shiftedAlpha 101 shift)
  | 0x13 => some (shiftedAlpha 114 shift)
  | 0x14 => some (shiftedAlpha 116 shift)
  | 0x15 => some (shiftedAlpha 121 shift)
  | 0x16 => some (shiftedAlpha 117 shift)
  | 0x17 => some (shiftedAlpha 105 shift)
  | 0x18 => some (shiftedAlpha 111 shift)
  | 0x19 => some (shiftedAlpha 112 shift)
  | 0x1A => some (if shift then 123 else 91)
  | 0x1B => some (if shift then 125 else 93)
  | 0x1C => some 10
  | 0x1E => some (shiftedAlpha 97 shift)
  | 0x1F => some (shiftedAlpha 115 shift)
  | 0x20 => some (shiftedAlpha 100 shift)
  | 0x21 => some (shiftedAlpha 102 shift)
  | 0x22 => some (shiftedAlpha 103 shift)
  | 0x23 => some (shiftedAlpha 104 shift)
  | 0x24 => some (shiftedAlpha 106 shift)
  | 0x25 => some (shiftedAlpha 107 shift)
  | 0x26 => some (shiftedAlpha 108 shift)
  | 0x27 => some (if shift then 58 else 59)
  | 0x28 => some (if shift then 34 else 39)
  | 0x29 => some (if shift then 126 else 96)
  | 0x2B => some (if shift then 124 else 92)
  | 0x2C => some (shiftedAlpha 122 shift)
  | 0x2D => some (shiftedAlpha 120 shift)
  | 0x2E => some (shiftedAlpha 99 shift)
  | 0x2F => some (shiftedAlpha 118 shift)
  | 0x30 => some (shiftedAlpha 98 shift)
  | 0x31 => some (shiftedAlpha 110 shift)
  | 0x32 => some (shiftedAlpha 109 shift)
  | 0x33 => some (if shift then 60 else 44)
  | 0x34 => some (if shift then 62 else 46)
  | 0x35 => some (if shift then 63 else 47)
  | 0x39 => some 32
  | _ => none

/-- `map_set1_scancode_event` from `kernel/src/keyboard.rs`: with the 0xE0
prefix the arrow keys and the keypad Enter map; without it, Escape maps to
0x1B and everything else falls through to the unshifted ASCII table. -/
def mapSet1ScancodeEvent (scancode : Nat) (extended : Bool) : Option KeyCode :=
  if extended then
    match scancode with
    | 0x48 => some KeyCode.arrowUp
    | 0x50 => some KeyCode.arrowDown
    | 0x4B => some KeyCode.arrowLeft
    | 0x4D => some KeyCode.arrowRight
    | 0x1C => some (KeyCode.byte 10)
    | _ => none
  else if scancode = 0x01 then some (KeyCode.byte 27)
  else (mapSet1Scancode scancode false).map KeyCode.byte

/-- `encode_key_event`: the 15-bit code with bit 15 carrying the pressed
flag. -/
def encodeKeyEvent (code : KeyCode) (pressed : Bool) : Nat :=
  let value :=
    match code with
    | KeyCode.byte b => b
    | KeyCode.arrowUp => 0x0100
    | KeyCode.arrowDown => 0x0101
    | KeyCode.arrowLeft => 0x0102
    | KeyCode.arrowRight => 0x0103
  if pressed then value ||| 0x8000 else value

/-- `handle_scancode` from `kernel/src/keyboard.rs`: 0xE0 arms the extended
prefix; 0x2A/0x36 (with any prefix) only update the shift flag; a code the
event table maps is encoded and pushed to the event queue; finally, a
non-extended press with an ASCII mapping is pushed to the byte queue. -/
def handleScancode (st : KbState) (scancode : Nat) : KbState :=
  if scancode = 0xE0 then { st with extendedFlag := true }
  else
    let extended := st.extendedFlag
    let st1 := { st with extendedFlag := false }
    let pressed := scancode &&& 0x80 = 0
    let code := scancode &&& 0x7f
    if code = 0x2A ∨ code = 0x36 then { st1 with shiftPressed := decide pressed }
    else
      let st2 :=
        match mapSet1ScancodeEvent code extended with
        | some eventCode =>
            { st1 with eventQueue := kbPush st1.eventQueue (encodeKeyEvent eventCode (decide pressed)) }
        | none => st1
      if ¬pressed ∨ extended then st2
      else
        match mapSet1Scancode code st2.shiftPressed with
        | some ascii => { st2 with byteQueue := kbPush st2.byteQueue ascii }
        | none => st2

/-! ## Storage: virtio-blk sector interface (`kernel/src/storage/mod.rs`)

A sector is 512 bytes, embedded as a `List Nat`.  The disk is a total map
from sector number to sector contents.  `read_sector` / `write_sector` fail
when the device is not ready or the sector number is out of range; a
successful request is modelled as completing deterministically. -/

/-- `SECTOR_SIZE` from `kernel/src/storage/mod.rs`. -/
def SECTOR_SIZE : Nat := 512

/-- The `StorageError` variants reachable from the sector interface. -/
inductive StorageError where
  | notReady : StorageError
  | outOfRange : StorageError
deriving DecidableEq, Repr

/-- The storage state visible to the filesystem: readiness, capacity in
sectors, and the disk contents. -/
structure Storage where
  ready : Bool
  capacitySectors : Nat
  disk : Nat → List Nat

/-- `storage::read_sector`. -/
def readSector (st : Storage) (sector : Nat) : Except StorageError (List Nat) :=
  if !st.ready then .error .notReady
  else if st.capacitySectors ≤ sector then .error .outOfRange
  else .ok (st.disk sector)

/-- `storage::write_sector`. -/
def writeSector (st : Storage) (sector : Nat) (data : List Nat) :
    Except StorageError Storage :=
  if !st.ready then .error .notReady
  else if st.capacitySectors ≤ sector then .error .outOfRange
  else .ok { st with disk := fun s => if s = sector then data else st.disk s }

/-! ## Filesystem: constants and directory entries (`kernel/src/fs/diskfs.rs`) -/

/-- `MAX_FILES` from `kernel/src/fs/ramfs.rs` (shared by the disk backend). -/
def MAX_FILES : Nat := 16
/-- `MAX_FILE_NAME_BYTES`. -/
def MAX_FILE_NAME_BYTES : Nat := 48
/-- `MAX_FILE_BYTES`. -/
def MAX_FILE_BYTES : Nat := 512
/-- The on-disk magic `b"AROSTFS1"`. -/
def MAGIC_BYTES : List Nat := [65, 82, 79, 83, 84, 70, 83, 49]
/-- `VERSION`. -/
def FS_VERSION : Nat := 1
/-- `SUPERBLOCK_SECTOR`. -/
def SUPERBLOCK_SECTOR : Nat := 0
/-- `DIR_START_SECTOR`. -/
def DIR_START_SECTOR : Nat := 1
/-- `DIR_ENTRY_BYTES`. -/
def DIR_ENTRY_BYTES : Nat := 72
/-- `DIR_BYTES = DIR_ENTRY_BYTES * MAX_FILES`. -/
def DIR_BYTES : Nat := DIR_ENTRY_BYTES * MAX_FILES
/-- `DIR_SECTORS = DIR_BYTES.div_ceil(SECTOR_SIZE)`. -/
def DIR_SECTORS : Nat := (DIR_BYTES + SECTOR_SIZE - 1) / SECTOR_SIZE
/-- `DATA_START_SECTOR = DIR_START_SECTOR + DIR_SECTORS`. -/
def DATA_START_SECTOR : Nat := DIR_START_SECTOR + DIR_SECTORS

/-- `FsError` from `kernel/src/fs/mod.rs`. -/
inductive FsError where
  | invalidPath : FsError
  | nameTooLong : FsError
  | notFound : FsError
  | noSpace : FsError
  | fileTooLarge : FsError
  | bufferTooSmall : FsError
  | diskCorrupt : FsError
  | storageUnavailable : FsError
  | storageIo : FsError
  | storageNoSpace : FsError
deriving DecidableEq, Repr

instance {e a : Type} [DecidableEq e] [DecidableEq a] : DecidableEq (Except e a) := fun x y =>
  match x, y with
  | .error e1, .error e2 =>
    if h : e1 = e2 then .isTrue (by rw [h]) else .isFalse (fun hc => h (by cases hc; rfl))
  | .error _, .ok _ => .isFalse (fun hc => Except.noConfusion hc)
  | .ok _, .error _ => .isFalse (fun hc => Except.noConfusion hc)
  | .ok a1, .ok a2 =>
    if h : a1 = a2 then .isTrue (by rw [h]) else .isFalse (fun hc => h (by cases hc; rfl))

/-- `DiskEntry` from `kernel/src/fs/diskfs.rs`.  `name` is the full 48-byte
array; `nameLen` says how much of it is meaningful. -/
structure DiskEntry where
  used : Bool
  name : List Nat
  nameLen : Nat
  sizeBytes : Nat
  startSector : Nat
  sectorCount : Nat
deriving DecidableEq, Repr

/-- `DiskEntry::empty`. -/
def emptyEntry : DiskEntry :=
  { used := false
    name := List.replicate MAX_FILE_NAME_BYTES 0
    nameLen := 0
    sizeBytes := 0
    startSector := 0
    sectorCount := 0 }

/-- `DiskEntry::set_name`: zero the array, copy at most 48 bytes, record the
copied length. -/
def setName (e : DiskEntry) (name : List Nat) : DiskEntry :=
  let len := min name.length MAX_FILE_NAME_BYTES
  { e with
    name := name.take len ++ List.replicate (MAX_FILE_NAME_BYTES - len) 0
    nameLen := len }

/-- Whether a byte is a UTF-8 continuation byte (`0x80..=0xBF`). -/
def isUtf8Cont (b : Nat) : Bool := decide (0x80 ≤ b ∧ b ≤ 0xBF)

/-- Allowed range of the second byte of a three-byte UTF-8 sequence, which
depends on the first byte (excluding overlong encodings and surrogates). -/
def utf8Cont3 (b c1 : Nat) : Bool :=
  if b = 0xE0 then decide (0xA0 ≤ c1 ∧ c1 ≤ 0xBF)
  else if b = 0xED then decide (0x80 ≤ c1 ∧ c1 ≤ 0x9F)
  else isUtf8Cont c1

/-- Allowed range of the second byte of a four-byte UTF-8 sequence. -/
def utf8Cont4 (b c1 : Nat) : Bool :=
  if b = 0xF0 then decide (0x90 ≤ c1 ∧ c1 ≤ 0xBF)
  else if b = 0xF4 then decide (0x80 ≤ c1 ∧ c1 ≤ 0x8F)
  else isUtf8Cont c1

/-- Validity of a byte sequence as UTF-8, as decided by
`core::str::from_utf8` (used by `DiskEntry::name`). -/
def isValidUtf8 : List Nat → Bool
  | [] => true
  | b :: rest =>
    if b ≤ 0x7F then isValidUtf8 rest
    else if 0xC2 ≤ b ∧ b ≤ 0xDF then
      match rest with
      | c1 :: rest2 => isUtf8Cont c1 && isValidUtf8 rest2
      | [] => false
    else if 0xE0 ≤ b ∧ b ≤ 0xEF then
      match rest with
      | c1 :: c2 :: rest2 => utf8Cont3 b c1 && isUtf8Cont c2 && isValidUtf8 rest2
      | _ => false
    else if 0xF0 ≤ b ∧ b ≤ 0xF4 then
      match rest with
      | c1 :: c2 :: c3 :: rest2 =>
          utf8Cont4 b c1 && isUtf8Cont c2 && isUtf8Cont c3 && isValidUtf8 rest2
      | _ => false
    else false

/-- The bytes of the fallback string `"<invalid-name>"` that
`DiskEntry::name` substitutes for a name that is not valid UTF-8. -/
def invalidNameBytes : List Nat :=
  [60, 105, 110, 118, 97, 108, 105, 100, 45, 110, 97, 109, 101, 62]

/-- `DiskEntry::name`: the first `name_len` bytes of the array, decoded as
UTF-8, or the fallback string when they do not decode. -/
def entryName (e : DiskEntry) : List Nat :=
  let bytes := e.name.take e.nameLen
  if isValidUtf8 bytes then bytes else invalidNameBytes

/-- `DiskFs` from `kernel/src/fs/diskfs.rs`.  The `dir_bytes` scratch buffer
is not carried: both `load_directory` and `persist_metadata` rewrite it
completely before reading it, so it never carries information between
operations. -/
structure DiskFsState where
  mounted : Bool
  totalSectors : Nat
  nextFreeSector : Nat
  fileCount : Nat
  entries : List DiskEntry
deriving DecidableEq, Repr

/-- `DiskFs::new`. -/
def diskFsNew : DiskFsState :=
  { mounted := false
    totalSectors := 0
    nextFreeSector := DATA_START_SECTOR
    fileCount := 0
    entries := List.replicate MAX_FILES emptyEntry }

/-- Number of used entries (`DiskFs::file_count` recomputes this). -/
def usedCount (entries : List DiskEntry) : Nat :=
  (entries.filter (fun e => e.used)).length

/-! ## Filesystem: byte-level helpers -/

/-- `to_le_bytes`: `width` little-endian bytes of `value`. -/
def leBytes (width value : Nat) : List Nat :=
  (List.range width).map (fun i => value / 256 ^ i % 256)

/-- Little-endian 16-bit value at an offset (`u16::from_le_bytes`). -/
def u16At (bytes : List Nat) (offset : Nat) : Nat :=
  bytes.getD offset 0 + 256 * bytes.getD (offset + 1) 0

/-- Little-endian 32-bit value at an offset (`u32::from_le_bytes`). -/
def u32At (bytes : List Nat) (offset : Nat) : Nat :=
  bytes.getD offset 0 + 256 * bytes.getD (offset + 1) 0 +
    256 ^ 2 * bytes.getD (offset + 2) 0 + 256 ^ 3 * bytes.getD (offset + 3) 0

/-- Little-endian 64-bit value at an offset (`u64::from_le_bytes`). -/
def u64At (bytes : List Nat) (offset : Nat) : Nat :=
  bytes.getD offset 0 + 256 * bytes.getD (offset + 1) 0 +
    256 ^ 2 * bytes.getD (offset + 2) 0 + 256 ^ 3 * bytes.getD (offset + 3) 0 +
    256 ^ 4 * bytes.getD (offset + 4) 0 + 256 ^ 5 * bytes.getD (offset + 5) 0 +
    256 ^ 6 * bytes.getD (offset + 6) 0 + 256 ^ 7 * bytes.getD (offset + 7) 0

/-- `read_u16` from `kernel/src/fs/diskfs.rs`. -/
def readU16 (bytes : List Nat) (offset : Nat) : Except FsError Nat :=
  if bytes.length < offset + 2 then .error .diskCorrupt
  else .ok (u16At bytes offset)

/-- `read_u32` from `kernel/src/fs/diskfs.rs`. -/
def readU32 (bytes : List Nat) (offset : Nat) : Except FsError Nat :=
  if bytes.length < offset + 4 then .error .diskCorrupt
  else .ok (u32At bytes offset)

/-- `read_u64` from `kernel/src/fs/diskfs.rs`. -/
def readU64 (bytes : List Nat) (offset : Nat) : Except FsError Nat :=
  if bytes.length < offset + 8 then .error .diskCorrupt
  else .ok (u64At bytes offset)

/-! ## Filesystem: name handling and lookup -/

/-- Membership of a byte in the ASCII part of `char::is_whitespace`
(the model restricts `str::trim` to single-byte whitespace; multi-byte
Unicode whitespace is outside the byte-list embedding of names). -/
def isAsciiWhitespace (b : Nat) : Bool :=
  decide (b = 32 ∨ b = 9 ∨ b = 10 ∨ b = 11 ∨ b = 12 ∨ b = 13)

/-- `str::trim` on the byte embedding. -/
def asciiTrim (s : List Nat) : List Nat :=
  ((s.dropWhile isAsciiWhitespace).reverse.dropWhile isAsciiWhitespace).reverse

/-- `DiskFs::normalize_name`: trim, strip one leading `/` (byte 47), reject
an empty result or an embedded `/`, and cap the length at 48 bytes. -/
def normalizeName (path : List Nat) : Except FsError (List Nat) :=
  let trimmed := asciiTrim path
  let name :=
    match trimmed with
    | 47 :: rest => rest
    | other => other
  if name = [] ∨ name.contains 47 then .error .invalidPath
  else if MAX_FILE_NAME_BYTES < name.length then .error .nameTooLong
  else .ok name

/-- Index of the first element satisfying a predicate
(`Iterator::enumerate().find(...)` / `Iterator::position`). -/
def findFirstIdx {α : Type} (p : α → Bool) : List α → Option Nat
  | [] => none
  | x :: xs => if p x then some 0 else (findFirstIdx p xs).map (· + 1)

/-- `DiskFs::find_index`: first used entry whose decoded name matches. -/
def findIndex (entries : List DiskEntry) (name : List Nat) : Option Nat :=
  findFirstIdx (fun e => e.used && entryName e == name) entries

/-- `DiskFs::find_free_index`: first unused slot. -/
def findFreeIndex (entries : List DiskEntry) : Option Nat :=
  findFirstIdx (fun e => !e.used) entries

/-- `DiskFs::allocate_extent`: bump allocation of a run of sectors at the
tail of the used area (`u64::saturating_add`). -/
def allocateExtent (fs : DiskFsState) (sectors : Nat) :
    Except FsError Nat × DiskFsState :=
  let needed := sectors
  let stop := satAdd64 fs.nextFreeSector needed
  if fs.totalSectors < stop then (.error .storageNoSpace, fs)
  else (.ok fs.nextFreeSector, { fs with nextFreeSector := stop })

/-! ## Filesystem: metadata persistence -/

/-- The 72 bytes that `persist_metadata` lays down for one directory slot:
flag byte, name length, two alignment zeros, size, start sector, sector
count, four padding zeros, then the 48-byte name field. -/
def entryBytes (e : DiskEntry) : List Nat :=
  if e.used then
    [1, e.nameLen % 256, 0, 0] ++ leBytes 4 e.sizeBytes ++ leBytes 8 e.startSector ++
      leBytes 4 e.sectorCount ++ [0, 0, 0, 0] ++
      (e.name.take e.nameLen ++ List.replicate (MAX_FILE_NAME_BYTES - e.nameLen) 0)
  else List.replicate DIR_ENTRY_BYTES 0

/-- The rebuilt `dir_bytes` buffer: 16 slots of 72 bytes each. -/
def buildDirBytes (entries : List DiskEntry) : List Nat :=
  entries.flatMap entryBytes

/-- The superblock sector that `persist_metadata` writes: magic, version,
`MAX_FILES`, `MAX_FILE_BYTES`, `DIR_SECTORS`, `next_free_sector`,
`file_count`, `total_sectors`, zero padding to 512 bytes. -/
def superBytes (fs : DiskFsState) : List Nat :=
  MAGIC_BYTES ++ leBytes 2 FS_VERSION ++ leBytes 2 MAX_FILES ++ leBytes 2 MAX_FILE_BYTES ++
    leBytes 2 DIR_SECTORS ++ leBytes 8 fs.nextFreeSector ++ leBytes 2 fs.fileCount ++
    leBytes 8 fs.totalSectors ++ List.replicate (SECTOR_SIZE - 34) 0

/-- The directory write loop of `persist_metadata`: each of the
`DIR_SECTORS` sectors carries its zero-padded slice of `dir_bytes`.  The
source iterates `sector_idx` in `0..DIR_SECTORS`; the embedding carries the
remaining iteration count as a structural argument alongside `sector_idx`
(the caller passes `0` and `DIR_SECTORS`). -/
def writeDirSectors : Storage → List Nat → Nat → Nat → Except FsError Unit × Storage
  | st, _, _, 0 => (.ok (), st)
  | st, dirBytes, sectorIdx, remaining + 1 =>
    let start := sectorIdx * SECTOR_SIZE
    let stop := min (start + SECTOR_SIZE) DIR_BYTES
    let len := stop - start
    let sectorBuf := (dirBytes.drop start).take len ++ List.replicate (SECTOR_SIZE - len) 0
    match writeSector st (DIR_START_SECTOR + sectorIdx) sectorBuf with
    | .error _ => (.error .storageIo, st)
    | .ok st1 => writeDirSectors st1 dirBytes (sectorIdx + 1) remaining

/-- `DiskFs::persist_metadata`: write the superblock, then the directory
sectors. -/
def persistMetadata (fs : DiskFsState) (st : Storage) : Except FsError Unit × Storage :=
  if !st.ready then (.error .storageUnavailable, st)
  else
    match writeSector st SUPERBLOCK_SECTOR (superBytes fs) with
    | .error _ => (.error .storageIo, st)
    | .ok st1 => writeDirSectors st1 (buildDirBytes fs.entries) 0 DIR_SECTORS

/-! ## Filesystem: mounting -/

/-- The directory read loop of `load_directory`: concatenates the meaningful
slice of each directory sector (structural iteration count alongside
`sector_idx`, as in `writeDirSectors`). -/
def readDirBytes (st : Storage) : Nat → Nat → Except FsError (List Nat)
  | _, 0 => .ok []
  | sectorIdx, remaining + 1 =>
    match readSector st (DIR_START_SECTOR + sectorIdx) with
    | .error _ => .error .storageIo
    | .ok sectorBuf =>
      let start := sectorIdx * SECTOR_SIZE
      let stop := min (start + SECTOR_SIZE) DIR_BYTES
      let len := stop - start
      match readDirBytes st (sectorIdx + 1) remaining with
      | .error e => .error e
      | .ok rest => .ok (sectorBuf.take len ++ rest)

/-- The per-slot parsing and validation step of `load_directory`: a slot
whose flag byte is zero stays empty; otherwise the name length must be in
`[1, 48]`, an entry with sectors must fit in
`[DATA_START_SECTOR, total_sectors)` with `size ≤ count * 512`, and an entry
without sectors must have size zero. -/
def parseDirEntry (dirBytes : List Nat) (index totalSectors : Nat) :
    Except FsError DiskEntry :=
  let base := index * DIR_ENTRY_BYTES
  if dirBytes.getD base 0 = 0 then .ok emptyEntry
  else
    let nameLen := dirBytes.getD (base + 1) 0
    if nameLen = 0 ∨ MAX_FILE_NAME_BYTES < nameLen then .error .diskCorrupt
    else
      match readU32 dirBytes (base + 4), readU64 dirBytes (base + 8),
          readU32 dirBytes (base + 16) with
      | .ok sizeBytes, .ok startSector, .ok sectorCount =>
        if 0 < sectorCount then
          let stop := satAdd64 startSector sectorCount
          if startSector < DATA_START_SECTOR ∨ totalSectors < stop then .error .diskCorrupt
          else if sectorCount * SECTOR_SIZE < sizeBytes then .error .diskCorrupt
          else .ok
            { used := true
              name := (dirBytes.drop (base + 24)).take nameLen ++
                List.replicate (MAX_FILE_NAME_BYTES - nameLen) 0
              nameLen := nameLen
              sizeBytes := sizeBytes
              startSector := startSector
              sectorCount := sectorCount }
        else if sizeBytes ≠ 0 then .error .diskCorrupt
        else .ok
          { used := true
            name := (dirBytes.drop (base + 24)).take nameLen ++
              List.replicate (MAX_FILE_NAME_BYTES - nameLen) 0
            nameLen := nameLen
            sizeBytes := sizeBytes
            startSector := startSector
            sectorCount := sectorCount }
      | .error e, _, _ => .error e
      | _, .error e, _ => .error e
      | _, _, .error e => .error e

/-- The entry rebuilding loop of `load_directory`, from slot `index` up:
returns the rebuilt entries and the used count. -/
def loadEntriesFrom (dirBytes : List Nat) (totalSectors : Nat) :
    Nat → Nat → Except FsError (List DiskEntry × Nat)
  | _, 0 => .ok ([], 0)
  | index, remaining + 1 =>
    match parseDirEntry dirBytes index totalSectors with
    | .error e => .error e
    | .ok entry =>
      match loadEntriesFrom dirBytes totalSectors (index + 1) remaining with
      | .error e => .error e
      | .ok (rest, usedTail) =>
          .ok (entry :: rest, if entry.used then satAdd16 usedTail 1 else usedTail)

/-- `DiskFs::load_directory`.  On a corrupt directory the source leaves a
partially rebuilt in-memory table behind, which nothing ever observes
because the volume stays unmounted; the model keeps the previous table in
that case. -/
def loadDirectory (fs : DiskFsState) (st : Storage) : Except FsError DiskFsState :=
  match readDirBytes st 0 DIR_SECTORS with
  | .error e => .error e
  | .ok dirBytes =>
    match loadEntriesFrom dirBytes fs.totalSectors 0 MAX_FILES with
    | .error e => .error e
    | .ok (entries, used) => .ok { fs with entries := entries, fileCount := used }

/-- `DiskFs::format`: clear the directory, reset the allocation cursor and
the file count, persist, and mark the volume mounted. -/
def formatFs (fs : DiskFsState) (st : Storage) :
    Except FsError Unit × DiskFsState × Storage :=
  let fs1 :=
    { fs with
      entries := List.replicate MAX_FILES emptyEntry
      fileCount := 0
      nextFreeSector := DATA_START_SECTOR }
  match persistMetadata fs1 st with
  | (.error e, st1) => (.error e, fs1, st1)
  | (.ok _, st1) => (.ok (), { fs1 with mounted := true }, st1)

/-- `DiskFs::mount_or_format`: read the superblock; a magic mismatch
formats; otherwise validate the version and the allocation cursor, then
rebuild the directory. -/
def mountOrFormat (fs : DiskFsState) (st : Storage) :
    Except FsError Unit × DiskFsState × Storage :=
  if !st.ready then (.error .storageUnavailable, fs, st)
  else if fs.totalSectors ≤ DATA_START_SECTOR then (.error .storageNoSpace, fs, st)
  else
    match readSector st SUPERBLOCK_SECTOR with
    | .error _ => (.error .storageIo, fs, st)
    | .ok superSector =>
      if superSector.take (MAGIC_BYTES.length) ≠ MAGIC_BYTES then formatFs fs st
      else
        let version := u16At superSector 8
        if version ≠ FS_VERSION then (.error .diskCorrupt, fs, st)
        else
          match readU64 superSector 16 with
          | .error e => (.error e, fs, st)
          | .ok nextFree =>
            match readU16 superSector 24 with
            | .error e => (.error e, fs, st)
            | .ok fileCount =>
              if nextFree < DATA_START_SECTOR ∨ fs.totalSectors < nextFree then
                (.error .diskCorrupt, fs, st)
              else
                let fs1 := { fs with nextFreeSector := nextFree, fileCount := fileCount }
                match loadDirectory fs1 st with
                | .error e => (.error e, fs1, st)
                | .ok fs2 => (.ok (), { fs2 with mounted := true }, st)

/-- `DiskFs::init`: adopt the device capacity and mount (or format). -/
def initFs (fs : DiskFsState) (st : Storage) :
    Except FsError Unit × DiskFsState × Storage :=
  if fs.mounted then (.ok (), fs, st)
  else mountOrFormat { fs with totalSectors := st.capacitySectors } st

/-- `DiskFs::ensure_mounted`. -/
def ensureMounted (fs : DiskFsState) (st : Storage) :
    Except FsError Unit × DiskFsState × Storage :=
  if fs.mounted then (.ok (), fs, st) else initFs fs st

/-! ## Filesystem: read, write, delete -/

/-- The sector copy loop of `DiskFs::read`: each sector's relevant slice is
spliced into the output buffer.  The source iterates `sector_idx` in
`0..sector_count`; the embedding carries the remaining iteration count as a
structural argument (the caller passes `0` and the sector count). -/
def readLoop (st : Storage) (startSector size : Nat) :
    List Nat → Nat → Nat → Except FsError Nat × List Nat
  | out, _, 0 => (.ok size, out)
  | out, sectorIdx, remaining + 1 =>
    match readSector st (startSector + sectorIdx) with
    | .error _ => (.error .storageIo, out)
    | .ok sectorBuf =>
      let start := sectorIdx * SECTOR_SIZE
      let stop := min (start + SECTOR_SIZE) size
      let len := stop - start
      readLoop st startSector size (out.take start ++ sectorBuf.take len ++ out.drop stop)
        (sectorIdx + 1) remaining

/-- `DiskFs::read` (`&self`: neither the filesystem state nor the disk
changes).  Returns the byte count and the updated output buffer. -/
def readFs (fs : DiskFsState) (st : Storage) (path : List Nat) (out : List Nat) :
    Except FsError Nat × List Nat :=
  if !fs.mounted then (.error .storageUnavailable, out)
  else
    match normalizeName path with
    | .error e => (.error e, out)
    | .ok name =>
      match findIndex fs.entries name with
      | none => (.error .notFound, out)
      | some index =>
        let entry := fs.entries.getD index emptyEntry
        let size := entry.sizeBytes
        if out.length < size then (.error .bufferTooSmall, out)
        else if size = 0 then (.ok 0, out)
        else if entry.sectorCount = 0 ∨ entry.startSector < DATA_START_SECTOR then
          (.error .diskCorrupt, out)
        else readLoop st entry.startSector size out 0 entry.sectorCount

/-- The sector write loop of `DiskFs::write`: each sector carries its
zero-padded slice of the data (structural iteration count alongside
`sector_idx`, as in `readLoop`). -/
def writeLoop : Storage → Nat → List Nat → Nat → Nat → Except FsError Unit × Storage
  | st, _, _, _, 0 => (.ok (), st)
  | st, startSector, data, sectorIdx, remaining + 1 =>
    let start := sectorIdx * SECTOR_SIZE
    let stop := min (start + SECTOR_SIZE) data.length
    let len := stop - start
    let sectorBuf := (data.drop start).take len ++ List.replicate (SECTOR_SIZE - len) 0
    match writeSector st (startSector + sectorIdx) sectorBuf with
    | .error _ => (.error .storageIo, st)
    | .ok st1 => writeLoop st1 startSector data (sectorIdx + 1) remaining

/-- The in-memory state `DiskFs::write` builds after the data sectors are
written: the slot refreshed (`entry.used = true; entry.set_name(name);` and
the size/start/count fields), and `file_count` bumped when the slot was
free. -/
def writeUpdatedFs (fs : DiskFsState) (name data : List Nat)
    (neededSectors entryIndex startSector : Nat) : DiskFsState :=
  { fs with
    entries := fs.entries.set entryIndex
      { used := true
        name := (setName (fs.entries.getD entryIndex emptyEntry) name).name
        nameLen := (setName (fs.entries.getD entryIndex emptyEntry) name).nameLen
        sizeBytes := data.length
        startSector := startSector
        sectorCount := neededSectors }
    fileCount :=
      if !(fs.entries.getD entryIndex emptyEntry).used then satAdd16 fs.fileCount 1
      else fs.fileCount }

/-- The tail of `DiskFs::write` after the start sector has been chosen:
write the data sectors, refresh the directory entry (`writeUpdatedFs`),
persist. -/
def writeFinish (fs : DiskFsState) (st : Storage) (name data : List Nat)
    (neededSectors entryIndex startSector : Nat) :
    Except FsError Nat × DiskFsState × Storage :=
  match writeLoop st startSector data 0 neededSectors with
  | (.error e, st1) => (.error e, fs, st1)
  | (.ok _, st1) =>
    match persistMetadata (writeUpdatedFs fs name data neededSectors entryIndex startSector)
        st1 with
    | (.error e, st2) =>
        (.error e, writeUpdatedFs fs name data neededSectors entryIndex startSector, st2)
    | (.ok _, st2) =>
        (.ok data.length, writeUpdatedFs fs name data neededSectors entryIndex startSector, st2)

/-- `DiskFs::write`. -/
def writeFs (fs : DiskFsState) (st : Storage) (path data : List Nat) :
    Except FsError Nat × DiskFsState × Storage :=
  match ensureMounted fs st with
  | (.error e, fs1, st1) => (.error e, fs1, st1)
  | (.ok _, fs1, st1) =>
    if MAX_FILE_BYTES < data.length then (.error .fileTooLarge, fs1, st1)
    else
      match normalizeName path with
      | .error e => (.error e, fs1, st1)
      | .ok name =>
        let neededSectors :=
          if data = [] then 0 else (data.length + SECTOR_SIZE - 1) / SECTOR_SIZE
        let slot :=
          match findIndex fs1.entries name with
          | some index => some index
          | none => findFreeIndex fs1.entries
        match slot with
        | none => (.error .noSpace, fs1, st1)
        | some entryIndex =>
          let entry := fs1.entries.getD entryIndex emptyEntry
          if neededSectors = 0 then
            writeFinish fs1 st1 name data neededSectors entryIndex 0
          else if entry.used ∧ neededSectors ≤ entry.sectorCount ∧ entry.startSector ≠ 0 then
            writeFinish fs1 st1 name data neededSectors entryIndex entry.startSector
          else
            match allocateExtent fs1 neededSectors with
            | (.error e, fs2) => (.error e, fs2, st1)
            | (.ok startSector, fs2) =>
              writeFinish fs2 st1 name data neededSectors entryIndex startSector

/-- `DiskFs::delete`. -/
def deleteFs (fs : DiskFsState) (st : Storage) (path : List Nat) :
    Except FsError Unit × DiskFsState × Storage :=
  match ensureMounted fs st with
  | (.error e, fs1, st1) => (.error e, fs1, st1)
  | (.ok _, fs1, st1) =>
    match normalizeName path with
    | .error e => (.error e, fs1, st1)
    | .ok name =>
      match findIndex fs1.entries name with
      | none => (.error .notFound, fs1, st1)
      | some index =>
        if (fs1.entries.getD index emptyEntry).used then
          let fs2 :=
            { fs1 with
              entries := fs1.entries.set index emptyEntry
              fileCount := satSub16 fs1.fileCount 1 }
          match persistMetadata fs2 st1 with
          | (.error e, st2) => (.error e, fs2, st2)
          | (.ok _, st2) => (.ok (), fs2, st2)
        else (.ok (), fs1, st1)

/-! ## Filesystem: invariants, spec-side predicates and concrete volumes -/

/-- The metadata invariants of a mounted volume: the allocation cursor stays
in `[DATA_START_SECTOR, total_sectors]`, `file_count` counts the used
entries, the directory has its fixed 16 slots, and every used entry lies in
bounds (`start_sector ≥ data_start` whenever the entry owns sectors,
`start + count ≤ total_sectors`, `size ≤ count * 512`; an entry without
sectors has size 0 as a consequence of the last bound). -/
def FsInv (fs : DiskFsState) : Prop :=
  DATA_START_SECTOR ≤ fs.nextFreeSector ∧
  fs.nextFreeSector ≤ fs.totalSectors ∧
  fs.fileCount = usedCount fs.entries ∧
  fs.entries.length = MAX_FILES ∧
  ∀ e ∈ fs.entries, e.used = true →
    (0 < e.sectorCount → DATA_START_SECTOR ≤ e.startSector) ∧
    e.startSector + e.sectorCount ≤ fs.totalSectors ∧
    e.sizeBytes ≤ e.sectorCount * SECTOR_SIZE

instance (fs : DiskFsState) : Decidable (FsInv fs) := by
  unfold FsInv; infer_instance

/-- No two used entries carry the same decoded name. -/
def UniqueNames (entries : List DiskEntry) : Prop :=
  entries.Pairwise (fun a b => a.used = true → b.used = true → entryName a ≠ entryName b)

instance (entries : List DiskEntry) : Decidable (UniqueNames entries) := by
  unfold UniqueNames; infer_instance

/-- The directory bytes as `load_directory` assembles them from sectors 1-3
(512 + 512 + 128 bytes). -/
def mountDirBytes (st : Storage) : List Nat :=
  (st.disk 1).take 512 ++ ((st.disk 2).take 512 ++ ((st.disk 3).take 128 ++ []))

/-- The per-slot corruption conditions that `load_directory` actually
enforces on a slot whose flag byte is set: name length outside `[1, 48]`;
an entry owning sectors that starts below the data area, ends past
`total_sectors` (saturating addition, as in the source), or declares more
bytes than its sectors hold; or an entry owning no sectors but declaring a
nonzero size. -/
def slotBad (dirBytes : List Nat) (totalSectors i : Nat) : Prop :=
  dirBytes.getD (i * DIR_ENTRY_BYTES) 0 ≠ 0 ∧
  (dirBytes.getD (i * DIR_ENTRY_BYTES + 1) 0 = 0 ∨
   MAX_FILE_NAME_BYTES < dirBytes.getD (i * DIR_ENTRY_BYTES + 1) 0 ∨
   (0 < u32At dirBytes (i * DIR_ENTRY_BYTES + 16) ∧
     (u64At dirBytes (i * DIR_ENTRY_BYTES + 8) < DATA_START_SECTOR ∨
      totalSectors < satAdd64 (u64At dirBytes (i * DIR_ENTRY_BYTES + 8))
        (u32At dirBytes (i * DIR_ENTRY_BYTES + 16)) ∨
      u32At dirBytes (i * DIR_ENTRY_BYTES + 16) * SECTOR_SIZE <
        u32At dirBytes (i * DIR_ENTRY_BYTES + 4))) ∨
   (u32At dirBytes (i * DIR_ENTRY_BYTES + 16) = 0 ∧
     u32At dirBytes (i * DIR_ENTRY_BYTES + 4) ≠ 0))

instance (dirBytes : List Nat) (totalSectors i : Nat) :
    Decidable (slotBad dirBytes totalSectors i) := by
  unfold slotBad; infer_instance

/-- The corruption conditions of a mount, as the code enforces them
(version, cursor range, and `slotBad` on some slot). -/
def mountCorrupt (fs : DiskFsState) (st : Storage) : Prop :=
  u16At (st.disk SUPERBLOCK_SECTOR) 8 ≠ FS_VERSION ∨
  u64At (st.disk SUPERBLOCK_SECTOR) 16 < DATA_START_SECTOR ∨
  fs.totalSectors < u64At (st.disk SUPERBLOCK_SECTOR) 16 ∨
  ∃ i ∈ List.range MAX_FILES, slotBad (mountDirBytes st) fs.totalSectors i

instance (fs : DiskFsState) (st : Storage) : Decidable (mountCorrupt fs st) := by
  unfold mountCorrupt; infer_instance

/-- The per-slot corruption conditions exactly as the specification words
them (`start+count > total_sectors`, `size > count × 512`,
`name_len ∉ [1, 48]`), to be compared with what the code enforces. -/
def claimSlotBad (dirBytes : List Nat) (totalSectors i : Nat) : Prop :=
  dirBytes.getD (i * DIR_ENTRY_BYTES) 0 ≠ 0 ∧
  (totalSectors <
     u64At dirBytes (i * DIR_ENTRY_BYTES + 8) + u32At dirBytes (i * DIR_ENTRY_BYTES + 16) ∨
   u32At dirBytes (i * DIR_ENTRY_BYTES + 16) * SECTOR_SIZE <
     u32At dirBytes (i * DIR_ENTRY_BYTES + 4) ∨
   dirBytes.getD (i * DIR_ENTRY_BYTES + 1) 0 = 0 ∨
   MAX_FILE_NAME_BYTES < dirBytes.getD (i * DIR_ENTRY_BYTES + 1) 0)

instance (dirBytes : List Nat) (totalSectors i : Nat) :
    Decidable (claimSlotBad dirBytes totalSectors i) := by
  unfold claimSlotBad; infer_instance

/-- A ready 64-sector device holding zeroed sectors. -/
def stReady64 : Storage :=
  { ready := true, capacitySectors := 64, disk := fun _ => List.replicate SECTOR_SIZE 0 }

/-- A freshly formatted, mounted 64-sector volume. -/
def fsMounted64 : DiskFsState :=
  { mounted := true, totalSectors := 64, nextFreeSector := DATA_START_SECTOR,
    fileCount := 0, entries := List.replicate MAX_FILES emptyEntry }

/-- A zero-length file named `"a"` occupying no sectors. -/
def entryA00 : DiskEntry :=
  { used := true, name := 97 :: List.replicate 47 0, nameLen := 1,
    sizeBytes := 0, startSector := 0, sectorCount := 0 }

/-- A mounted 64-sector volume carrying two directory entries that both
decode to the name `"a"` (such a directory passes `load_directory`, which
never checks name uniqueness). -/
def fsDup64 : DiskFsState :=
  { mounted := true, totalSectors := 64, nextFreeSector := DATA_START_SECTOR,
    fileCount := 2, entries := entryA00 :: entryA00 :: List.replicate 14 emptyEntry }

/-- A mounted 64-sector volume with a single file `"a"`. -/
def fsSingle64 : DiskFsState :=
  { mounted := true, totalSectors := 64, nextFreeSector := DATA_START_SECTOR,
    fileCount := 1, entries := entryA00 :: List.replicate 15 emptyEntry }

/-- The in-memory state right before a mount of a 64-sector device. -/
def fsUnmounted64 : DiskFsState :=
  { mounted := false, totalSectors := 64, nextFreeSector := DATA_START_SECTOR,
    fileCount := 0, entries := List.replicate MAX_FILES emptyEntry }

/-- A directory entry owning one sector that starts below the data area
(start sector 2 lies inside the directory region). -/
def badStartEntry : DiskEntry :=
  { used := true, name := 97 :: List.replicate 47 0, nameLen := 1,
    sizeBytes := 0, startSector := 2, sectorCount := 1 }

/-- A 64-sector device with a well-formed superblock whose directory holds
`badStartEntry`: every condition the specification lists is satisfied, yet
the entry starts below the data area. -/
def stBadStart : Storage :=
  { ready := true, capacitySectors := 64,
    disk := fun s =>
      if s = 0 then
        superBytes
          { mounted := false, totalSectors := 64, nextFreeSector := DATA_START_SECTOR,
            fileCount := 1, entries := [] }
      else if s = 1 then
        entryBytes badStartEntry ++ List.replicate (SECTOR_SIZE - DIR_ENTRY_BYTES) 0
      else List.replicate SECTOR_SIZE 0 }

/-! ## Frame allocator (`kernel/src/mem/mod.rs`) -/

/-- `PAGE_SIZE` (`Size4KiB`). -/
def PAGE_SIZE : Nat := 4096

/-- `MIN_ALLOC_PHYS_ADDR`: the first MiB is never handed out. -/
def MIN_ALLOC_PHYS_ADDR : Nat := 0x100000

/-- The memory-map region kinds the allocator distinguishes: `Usable` versus
everything else (`Bootloader`, `UnknownUefi`, ...). -/
inductive MemoryRegionKind where
  | usable : MemoryRegionKind
  | reserved : MemoryRegionKind
deriving DecidableEq, Repr

/-- One bootloader memory-map region (`MemoryRegion`): physical start,
physical end (named `stop` here because `end` is reserved in Lean), kind. -/
structure MemoryRegion where
  start : Nat
  stop : Nat
  kind : MemoryRegionKind
deriving DecidableEq, Repr

/-- `BootInfoFrameAllocator`. -/
structure FrameAllocState where
  regions : List MemoryRegion
  regionCursor : Nat
  nextAddr : Nat
  currentRegionEnd : Nat

/-- `BootInfoFrameAllocator::new`. -/
def frameAllocNew (regions : List MemoryRegion) : FrameAllocState :=
  { regions := regions, regionCursor := 0, nextAddr := 0, currentRegionEnd := 0 }

/-- The per-region test inside `select_next_region`: a usable region whose
page-aligned start, bumped to at least 1 MiB, still lies below the region
end yields the candidate cursor position `(next_addr, current_region_end)`. -/
def regionCandidate (r : MemoryRegion) : Option (Nat × Nat) :=
  if r.kind ≠ MemoryRegionKind.usable then none
  else
    match alignUp64 r.start PAGE_SIZE with
    | none => none
    | some s0 =>
      let s := max s0 MIN_ALLOC_PHYS_ADDR
      if r.stop ≤ s then none
      else some (s, r.stop)

/-- `select_next_region`'s scan over the remaining regions, fused with the
frame-fit check of the `allocate_frame` loop.  The loop in the source never
revisits a region: when the selected region's first frame does not fit
(`checked_add` overflows, or `frame_end > current_region_end`), the loop
parks `next_addr` at the region end and the next iteration selects the
following region.  So each call to `allocate_frame` that needs a region
finds precisely the first region, at or after the cursor, whose first frame
fits.  The returned `Nat` counts how far the cursor advances (the found
region's offset, plus one). -/
def findFitFrom : List MemoryRegion → Option (Nat × Nat × Nat)
  | [] => none
  | r :: rest =>
    match regionCandidate r with
    | some (s, e) =>
      if s + PAGE_SIZE ≤ u64Max ∧ s + PAGE_SIZE ≤ e then some (1, s, e)
      else (findFitFrom rest).map (fun t => (t.1 + 1, t.2))
    | none => (findFitFrom rest).map (fun t => (t.1 + 1, t.2))

/-- `BootInfoFrameAllocator::allocate_frame`.  A state with `next_addr = 0`
or `next_addr ≥ current_region_end` selects a region first; a mid-region
state whose next frame fits returns it and advances by one page; otherwise
the region is abandoned and the search continues.  On exhaustion the source
leaves `region_cursor` past the last region and zeroes the cursor pair. -/
def allocateFrame (st : FrameAllocState) : Option Nat × FrameAllocState :=
  if st.nextAddr = 0 ∨ st.currentRegionEnd ≤ st.nextAddr then
    match findFitFrom (st.regions.drop st.regionCursor) with
    | none =>
        (none, { st with regionCursor := st.regions.length, nextAddr := 0, currentRegionEnd := 0 })
    | some (k, s, e) =>
        (some s,
          { st with
            regionCursor := st.regionCursor + k
            nextAddr := s + PAGE_SIZE
            currentRegionEnd := e })
  else if u64Max < st.nextAddr + PAGE_SIZE ∨ st.currentRegionEnd < st.nextAddr + PAGE_SIZE then
    match findFitFrom (st.regions.drop st.regionCursor) with
    | none =>
        (none, { st with regionCursor := st.regions.length, nextAddr := 0, currentRegionEnd := 0 })
    | some (k, s, e) =>
        (some s,
          { st with
            regionCursor := st.regionCursor + k
            nextAddr := s + PAGE_SIZE
            currentRegionEnd := e })
  else (some st.nextAddr, { st with nextAddr := st.nextAddr + PAGE_SIZE })

/-- The frames the allocator walks through inside a region slice
`[s, stop)`: `s`, `s + 4096`, ..., as long as the whole frame fits. -/
def framesIn (s stop : Nat) : List Nat :=
  (List.range ((stop - s) / PAGE_SIZE)).map (fun k => s + PAGE_SIZE * k)

/-- All frames a single region contributes. -/
def regionFrames (r : MemoryRegion) : List Nat :=
  match regionCandidate r with
  | none => []
  | some (s, e) => framesIn s e

/-- The full allocation stream of a memory map: regions in map order, frames
in ascending order within each region. -/
def canonicalFrames (regions : List MemoryRegion) : List Nat :=
  regions.flatMap regionFrames

/-- The first `n` results of repeatedly calling `allocate_frame`, stopping
early at the first `None`. -/
def allocRun (st : FrameAllocState) : Nat → List Nat
  | 0 => []
  | n + 1 =>
    match allocateFrame st with
    | (none, _) => []
    | (some a, st1) => a :: allocRun st1 n

/-- A two-region memory map: a reserved low page pair and one usable
region of two pages starting at the 1 MiB boundary. -/
def memRegionsFixture : List MemoryRegion :=
  [{ start := 0, stop := 8192, kind := MemoryRegionKind.reserved },
   { start := 1048576, stop := 1056768, kind := MemoryRegionKind.usable }]

/-! ## Theorems -/

/-- `align_up_u64` never moves an address down. -/
theorem alignUp64_ge {a al s : Nat} (h : alignUp64 a al = some s) : a ≤ s := by
  unfold alignUp64 at h
  split at h
  · simp at h
  · dsimp only at h
    split at h
    · simp only [Option.some.injEq] at h
      omega
    · split at h
      · simp only [Option.some.injEq] at h
        omega
      · simp at h

/-- C4: next-hop selection returns the destination itself exactly on the
direct-route conditions (destination is our own address, shares our subnet,
or no gateway is configured) and the gateway in every other case. -/
theorem select_next_hop_rule (st : NetIface) (dstIp : Ip4) :
    (selectNextHop st dstIp).1 =
      if dstIp = st.ipv4 ∨ inSameSubnet st dstIp ∨ st.gateway = zeroIp then dstIp
      else st.gateway := by
  unfold selectNextHop
  split <;> simp_all

/-- C8 counterexample: at `hz = 0` the divisor the code programs (65535,
because `init` substitutes `hz = 1`) differs from the spec formula
`clamp(1_193_182 / hz, 1, 65535)` read with total natural division (which
gives 1 there). -/
theorem pit_divisor_claim_cex : (pitInit 0).1 ≠ pitClaimDivisor 0 := by decide

/-- C8 (amended): for every `hz ≥ 1` the divisor written to PIT channel 0
and returned by `init` is `clamp(1_193_182 / hz, 1, 65535)`; at `hz = 0` the
code substitutes `hz = 1` and programs divisor 65535.  The write sequence is
the mode byte on port 0x43 followed by the divisor's low and high bytes on
port 0x40. -/
theorem pit_divisor_amended :
    (∀ hz, 1 ≤ hz → (pitInit hz).1 = pitClaimDivisor hz) ∧
    (pitInit 0).1 = 65535 ∧
    (∀ hz, (pitInit hz).2 =
      [(0x43, 0x36), (0x40, (pitInit hz).1 &&& 0xff), (0x40, ((pitInit hz).1 >>> 8) &&& 0xff)]) := by
  refine ⟨fun hz h => ?_, by decide, fun hz => ?_⟩
  · have hz0 : ¬ hz = 0 := by omega
    simp [pitInit, pitClaimDivisor, hz0]
  · simp [pitInit]

/-- C8 witness: the amended statement at `hz = 100`. -/
theorem pit_divisor_amended_witness :
    1 ≤ 100 ∧ (pitInit 100).1 = pitClaimDivisor 100 :=
  ⟨by decide, pit_divisor_amended.1 100 (by decide)⟩

/-- C9: the `SYS_SLEEP` arm puts the task into
`Sleeping { until_tick = now_ticks +sat max(arg0, 1) }` and returns 0; in
particular `SLEEP(0)` (second conjunct, before the tick counter saturates)
leaves the task asleep at the current tick and wakes it at the next one, so
it is not a no-op. -/
theorem sleep_syscall_spec :
    (∀ (stats : SyscallStats) (state : TaskState) (nowTicks arg0 : Nat),
      dispatchSyscallPure stats state nowTicks SYS_SLEEP arg0 =
        some ({ stats with sleep := satAdd64 stats.sleep 1 },
          TaskState.sleeping (satAdd64 nowTicks (max arg0 1)), 0)) ∧
    (∀ nowTicks : Nat, nowTicks < u64Max →
      wakeSleeping nowTicks (TaskState.sleeping (satAdd64 nowTicks (max 0 1))) =
        TaskState.sleeping (satAdd64 nowTicks (max 0 1)) ∧
      wakeSleeping (nowTicks + 1) (TaskState.sleeping (satAdd64 nowTicks (max 0 1))) =
        TaskState.ready) := by
  constructor
  · intro stats state nowTicks arg0
    simp [dispatchSyscallPure, SYS_SLEEP, SYS_EXIT, SYS_YIELD]
  · intro nowTicks h
    have h2 : nowTicks < 2 ^ 64 - 1 := h
    have hs : satAdd64 nowTicks (max 0 1) = nowTicks + 1 := by
      simp only [satAdd64, u64Max]
      omega
    rw [hs]
    unfold wakeSleeping
    constructor
    · simp
    · simp

/-- C9 witness: the `SLEEP(0)` behaviour at tick 10. -/
theorem sleep_syscall_spec_witness :
    10 < u64Max ∧
    (wakeSleeping 10 (TaskState.sleeping (satAdd64 10 (max 0 1))) =
        TaskState.sleeping (satAdd64 10 (max 0 1)) ∧
      wakeSleeping 11 (TaskState.sleeping (satAdd64 10 (max 0 1))) = TaskState.ready) :=
  ⟨by decide, sleep_syscall_spec.2 10 (by decide)⟩

/-- C10: on the initialized allocator a zero-size `allocate` returns the
non-null dangling pointer (address 1) without touching the cursor or the
live count; a zero-size `deallocate` is a no-op (so a zero-size pair never
resets the cursor); and both operations keep the cursor inside
`[heap_start, heap_end]`. -/
theorem bump_zero_size_spec :
    (∀ (st : BumpAllocator) (layout : LayoutModel),
      st.initialized = true → layout.size = 0 →
      bumpAllocate st layout = (1, st) ∧ (1 : Nat) ≠ 0) ∧
    (∀ (st : BumpAllocator) (layout : LayoutModel), layout.size = 0 →
      bumpDeallocate st layout = st) ∧
    (∀ (st : BumpAllocator) (layout : LayoutModel), BumpInv st →
      BumpInv (bumpAllocate st layout).2 ∧ BumpInv (bumpDeallocate st layout)) := by
  refine ⟨fun st layout hinit hsz => ?_, fun st layout hsz => ?_, fun st layout hinv => ?_⟩
  · simp [bumpAllocate, hinit, hsz]
  · simp [bumpDeallocate, hsz]
  · obtain ⟨h1, h2⟩ := hinv
    constructor
    · simp only [bumpAllocate]
      split
      · exact ⟨h1, h2⟩
      · split
        · exact ⟨h1, h2⟩
        · rcases halign : alignUp64 st.next layout.align with _ | start
          · simp only [halign]
            exact ⟨h1, h2⟩
          · have hge := alignUp64_ge halign
            simp only [halign]
            split
            · exact ⟨h1, h2⟩
            · split
              · exact ⟨h1, h2⟩
              · rename_i hfit
                exact ⟨Nat.le_trans h1 (Nat.le_trans hge (Nat.le_add_right _ _)),
                  Nat.le_of_not_lt hfit⟩
    · simp only [bumpDeallocate]
      split
      · exact ⟨h1, h2⟩
      · split
        · exact ⟨Nat.le_refl _, Nat.le_trans h1 h2⟩
        · exact ⟨h1, h2⟩

/-- C10 witness: the three parts at a concrete initialized allocator. -/
theorem bump_zero_size_spec_witness :
    (bumpAllocate ⟨100, 200, 150, 2, true⟩ ⟨0, 1⟩ = (1, ⟨100, 200, 150, 2, true⟩) ∧
      (1 : Nat) ≠ 0) ∧
    bumpDeallocate ⟨100, 200, 150, 2, true⟩ ⟨0, 1⟩ = ⟨100, 200, 150, 2, true⟩ ∧
    (BumpInv (bumpAllocate ⟨100, 200, 150, 2, true⟩ ⟨8, 8⟩).2 ∧
      BumpInv (bumpDeallocate ⟨100, 200, 150, 2, true⟩ ⟨8, 8⟩)) :=
  ⟨bump_zero_size_spec.1 ⟨100, 200, 150, 2, true⟩ ⟨0, 1⟩ rfl rfl,
    bump_zero_size_spec.2.1 ⟨100, 200, 150, 2, true⟩ ⟨0, 1⟩ rfl,
    bump_zero_size_spec.2.2 ⟨100, 200, 150, 2, true⟩ ⟨8, 8⟩ (by constructor <;> decide)⟩

/-- C3 counterexample: scancode 0x3B (the F1 key, a press, not the 0xE0
prefix and not a shift code) produces no event at all: the queue indices and
the overflow counter are untouched even though the queue is not full. -/
theorem keyboard_event_claim_cex :
    (handleScancode kbInit 0x3B).eventQueue.head = kbInit.eventQueue.head ∧
    (handleScancode kbInit 0x3B).eventQueue.tail = kbInit.eventQueue.tail ∧
    (handleScancode kbInit 0x3B).eventQueue.overflow = kbInit.eventQueue.overflow ∧
    (kbInit.eventQueue.head + 1) % KB_QUEUE_CAPACITY ≠ kbInit.eventQueue.tail :=
  ⟨rfl, rfl, rfl, by decide⟩

/-- C3 (amended): every scancode that the set-1 event table maps (arrow keys
under the 0xE0 prefix included, the shift codes 0x2A/0x36 excluded — they
only update the shift flag, last conjunct) is encoded as `(code, pressed)`
and pushed onto the SPSC event queue; when the queue is full the event is
discarded and the overflow counter increments.  Scancodes outside the table
(e.g. F1) produce no event. -/
theorem keyboard_event_push_amended :
    (∀ (st : KbState) (scancode : Nat), scancode ≠ 0xE0 →
      (scancode &&& 0x7f) ≠ 0x2A → (scancode &&& 0x7f) ≠ 0x36 →
      ∀ k, mapSet1ScancodeEvent (scancode &&& 0x7f) st.extendedFlag = some k →
        (handleScancode st scancode).eventQueue =
          kbPush st.eventQueue (encodeKeyEvent k (decide (scancode &&& 0x80 = 0))) ∧
        ((st.eventQueue.head + 1) % KB_QUEUE_CAPACITY = st.eventQueue.tail →
          (handleScancode st scancode).eventQueue.head = st.eventQueue.head ∧
          (handleScancode st scancode).eventQueue.tail = st.eventQueue.tail ∧
          (handleScancode st scancode).eventQueue.overflow =
            satAdd64 st.eventQueue.overflow 1) ∧
        ((st.eventQueue.head + 1) % KB_QUEUE_CAPACITY ≠ st.eventQueue.tail →
          (handleScancode st scancode).eventQueue.head =
            (st.eventQueue.head + 1) % KB_QUEUE_CAPACITY ∧
          (handleScancode st scancode).eventQueue.buf st.eventQueue.head =
            encodeKeyEvent k (decide (scancode &&& 0x80 = 0)) ∧
          (handleScancode st scancode).eventQueue.overflow = st.eventQueue.overflow)) ∧
    (mapSet1ScancodeEvent 0x48 true = some KeyCode.arrowUp ∧
      mapSet1ScancodeEvent 0x50 true = some KeyCode.arrowDown ∧
      mapSet1ScancodeEvent 0x4B true = some KeyCode.arrowLeft ∧
      mapSet1ScancodeEvent 0x4D true = some KeyCode.arrowRight ∧
      ∀ st : KbState, handleScancode st 0xE0 = { st with extendedFlag := true }) ∧
    (∀ (st : KbState) (scancode : Nat), scancode ≠ 0xE0 →
      ((scancode &&& 0x7f) = 0x2A ∨ (scancode &&& 0x7f) = 0x36) →
      (handleScancode st scancode).eventQueue = st.eventQueue ∧
      (handleScancode st scancode).byteQueue = st.byteQueue) := by
  refine ⟨?_, ⟨by decide, by decide, by decide, by decide, fun st => rfl⟩, ?_⟩
  · intro st scancode h0 h2a h36 k hmap
    have hshift : ¬((scancode &&& 0x7f) = 0x2A ∨ (scancode &&& 0x7f) = 0x36) := by
      rintro (h | h)
      · exact h2a h
      · exact h36 h
    have hq : (handleScancode st scancode).eventQueue =
        kbPush st.eventQueue (encodeKeyEvent k (decide (scancode &&& 0x80 = 0))) := by
      simp only [handleScancode, if_neg h0, if_neg hshift, hmap]
      split
      · rfl
      · split <;> rfl
    refine ⟨hq, ?_, ?_⟩
    · intro hfull
      rw [hq]
      simp [kbPush, hfull]
    · intro hfull
      rw [hq]
      simp [kbPush, hfull]
  · intro st scancode h0 hsh
    constructor
    · simp only [handleScancode, if_neg h0, if_pos hsh]
    · simp only [handleScancode, if_neg h0, if_pos hsh]

/-- C3 witness: an arrow-up press (scancode 0x48 after the 0xE0 prefix) on
an empty queue lands in the event queue. -/
theorem keyboard_event_push_amended_witness :
    ((0x48 : Nat) ≠ 0xE0) ∧
    ((0x48 : Nat) &&& 0x7f) ≠ 0x2A ∧
    ((handleScancode ⟨false, true, ⟨fun _ => 0, 0, 0, 0⟩, ⟨fun _ => 0, 0, 0, 0⟩⟩ 0x48).eventQueue =
      kbPush ⟨fun _ => 0, 0, 0, 0⟩
        (encodeKeyEvent KeyCode.arrowUp (decide ((0x48 : Nat) &&& 0x80 = 0)))) :=
  ⟨by decide, by decide,
    (keyboard_event_push_amended.1 ⟨false, true, ⟨fun _ => 0, 0, 0, 0⟩, ⟨fun _ => 0, 0, 0, 0⟩⟩
      0x48 (by decide) (by decide) (by decide) KeyCode.arrowUp (by decide)).1⟩

/-! ### List helper lemmas for the filesystem proofs -/

/-- What `findFirstIdx p l = some i` says: `i` is in range, the element
there satisfies `p`, and no earlier element does. -/
theorem findFirstIdx_some_spec {α : Type} (p : α → Bool) (d : α) (l : List α) :
    ∀ (i : Nat), findFirstIdx p l = some i →
      i < l.length ∧ p (l.getD i d) = true ∧ ∀ j, j < i → p (l.getD j d) = false := by
  induction l with
  | nil => intro i h; simp [findFirstIdx] at h
  | cons x xs ih =>
    intro i h
    unfold findFirstIdx at h
    split at h
    · rename_i hpx
      obtain rfl : (0 : Nat) = i := by simpa using h
      exact ⟨Nat.succ_pos _, by simpa using hpx, fun j hj => absurd hj (Nat.not_lt_zero j)⟩
    · rename_i hpx
      rcases hmap : findFirstIdx p xs with _ | i2
      · rw [hmap] at h; simp at h
      · rw [hmap] at h
        simp only [Option.map_some', Option.some.injEq] at h
        subst h
        obtain ⟨h1, h2, h3⟩ := ih i2 hmap
        refine ⟨Nat.succ_lt_succ h1, by simpa using h2, ?_⟩
        intro j hj
        cases j with
        | zero => simpa using hpx
        | succ j2 => simpa using h3 j2 (by omega)

/-- `findFirstIdx` misses exactly when no element satisfies the predicate. -/
theorem findFirstIdx_none_iff {α : Type} (p : α → Bool) (l : List α) :
    findFirstIdx p l = none ↔ ∀ x ∈ l, p x = false := by
  induction l with
  | nil => simp [findFirstIdx]
  | cons x xs ih =>
    unfold findFirstIdx
    split
    · rename_i hpx
      simp [hpx]
    · rename_i hpx
      have hx : p x = false := by revert hpx; cases p x <;> simp
      constructor
      · intro h y hy
        rcases List.mem_cons.mp hy with rfl | hy2
        · exact hx
        · exact ih.mp (by simpa [Option.map_eq_none'] using h) y hy2
      · intro h
        have hxs : findFirstIdx p xs = none :=
          ih.mpr (fun y hy => h y (List.mem_cons_of_mem _ hy))
        simp [hxs]

/-- Conversely, a position satisfying the predicate with nothing before it
is what `findFirstIdx` returns. -/
theorem findFirstIdx_eq_some_of {α : Type} (p : α → Bool) (d : α) (l : List α) (i : Nat)
    (hi : i < l.length) (hp : p (l.getD i d) = true)
    (hb : ∀ j, j < i → p (l.getD j d) = false) :
    findFirstIdx p l = some i := by
  induction l generalizing i with
  | nil => simp at hi
  | cons x xs ih =>
    cases i with
    | zero =>
      unfold findFirstIdx
      rw [if_pos (by simpa using hp)]
    | succ i2 =>
      have hx : p x = false := by simpa using hb 0 (Nat.succ_pos _)
      unfold findFirstIdx
      rw [if_neg (by simp [hx])]
      have hrec := ih i2 (by simpa using hi) (by simpa using hp)
        (fun j hj => by simpa using hb (j + 1) (by omega))
      simp [hrec]

/-- A predicate false at every position means `findFirstIdx` misses. -/
theorem findFirstIdx_eq_none_of {α : Type} (p : α → Bool) (d : α) :
    ∀ (l : List α), (∀ j, j < l.length → p (l.getD j d) = false) →
      findFirstIdx p l = none := by
  intro l
  induction l with
  | nil => intro _; rfl
  | cons x xs ih =>
    intro h
    have hx : p x = false := by simpa using h 0 (Nat.succ_pos _)
    unfold findFirstIdx
    rw [if_neg (by simp [hx])]
    have hxs := ih (fun j hj => by simpa using h (j + 1) (by simpa using Nat.succ_lt_succ hj))
    simp [hxs]

/-- `getD` at the updated position. -/
theorem getD_set_self {α : Type} (d e : α) :
    ∀ (l : List α) (i : Nat), i < l.length → (l.set i e).getD i d = e := by
  intro l
  induction l with
  | nil => intro i h; simp at h
  | cons x xs ih =>
    intro i h
    cases i with
    | zero => rfl
    | succ i2 => simpa using ih i2 (by simpa using h)

/-- `getD` away from the updated position. -/
theorem getD_set_ne {α : Type} (d e : α) :
    ∀ (l : List α) (i j : Nat), i ≠ j → (l.set i e).getD j d = l.getD j d := by
  intro l
  induction l with
  | nil => intro i j _; simp
  | cons x xs ih =>
    intro i j hij
    cases i with
    | zero =>
      cases j with
      | zero => exact absurd rfl hij
      | succ j2 => simp
    | succ i2 =>
      cases j with
      | zero => simp
      | succ j2 => simpa using ih i2 j2 (by omega)

/-- An in-range `getD` produces a member of the list. -/
theorem getD_mem {α : Type} (d : α) :
    ∀ (l : List α) (i : Nat), i < l.length → l.getD i d ∈ l := by
  intro l
  induction l with
  | nil => intro i h; simp at h
  | cons x xs ih =>
    intro i h
    cases i with
    | zero => exact List.mem_cons_self _ _
    | succ i2 => exact List.mem_cons_of_mem _ (ih i2 (by simpa using h))

/-- A pairwise relation holds between any two positions in order. -/
theorem pairwise_getD {α : Type} {R : α → α → Prop} (d : α) :
    ∀ (l : List α), l.Pairwise R →
      ∀ i j, i < j → j < l.length → R (l.getD i d) (l.getD j d) := by
  intro l
  induction l with
  | nil => intro _ i j _ hj; simp at hj
  | cons x xs ih =>
    intro hp i j hij hj
    obtain ⟨hx, hxs⟩ := List.pairwise_cons.mp hp
    cases i with
    | zero =>
      cases j with
      | zero => omega
      | succ j2 =>
        simpa using hx (xs.getD j2 d) (getD_mem d xs j2 (by simpa using hj))
    | succ i2 =>
      cases j with
      | zero => omega
      | succ j2 => simpa using ih hxs i2 j2 (by omega) (by simpa using hj)

/-- Setting a slot trades its used bit for the new one in the used count. -/
theorem usedCount_set (e : DiskEntry) :
    ∀ (l : List DiskEntry) (i : Nat), i < l.length →
      usedCount (l.set i e) + (if (l.getD i emptyEntry).used then 1 else 0) =
        usedCount l + (if e.used then 1 else 0) := by
  intro l
  induction l with
  | nil => intro i h; simp at h
  | cons x xs ih =>
    intro i h
    cases i with
    | zero =>
      cases hx : x.used <;> cases he : e.used <;>
        simp [usedCount, List.filter_cons, hx, he] <;> try omega
    | succ i2 =>
      have hrec := ih i2 (by simpa using h)
      have hset : (x :: xs).set (i2 + 1) e = x :: xs.set i2 e := rfl
      have hgd : (x :: xs).getD (i2 + 1) emptyEntry = xs.getD i2 emptyEntry := rfl
      rw [hset, hgd]
      cases hx : x.used <;> simp [usedCount, List.filter_cons, hx] at hrec ⊢ <;> omega

/-- The used count never exceeds the directory length. -/
theorem usedCount_le_length (l : List DiskEntry) : usedCount l ≤ l.length :=
  List.length_filter_le _ l

/-! ### C7: delete idempotence -/

set_option maxRecDepth 10000 in
/-- C7 counterexample: a volume with two directory entries both named `"a"`
mounts fine (first two conjuncts: persisting it and remounting reproduces
it), and deleting `"a"` twice returns `Ok` both times — the second call does
not return `NotFound` and does change state. -/
theorem fs_delete_claim_cex :
    (mountOrFormat fsUnmounted64 (persistMetadata fsDup64 stReady64).2).1 = .ok () ∧
    (mountOrFormat fsUnmounted64 (persistMetadata fsDup64 stReady64).2).2.1 = fsDup64 ∧
    (deleteFs fsDup64 stReady64 [97]).1 = .ok () ∧
    (deleteFs (deleteFs fsDup64 stReady64 [97]).2.1 (deleteFs fsDup64 stReady64 [97]).2.2
        [97]).1 = .ok () := by
  refine ⟨by decide, by decide, by decide, by decide⟩

/-- C7 (amended): on a mounted volume whose used entries carry pairwise
distinct names, once `delete(name)` returns `Ok` the immediately following
`delete(name)` returns `Err(NotFound)` and leaves the filesystem state and
the disk untouched. -/
theorem fs_delete_idempotent (fs : DiskFsState) (st : Storage) (path : List Nat)
    (hmnt : fs.mounted = true) (huniq : UniqueNames fs.entries)
    (hok : (deleteFs fs st path).1 = .ok ()) :
    deleteFs (deleteFs fs st path).2.1 (deleteFs fs st path).2.2 path =
      (.error .notFound, (deleteFs fs st path).2.1, (deleteFs fs st path).2.2) := by
  have hens : ensureMounted fs st = (.ok (), fs, st) := by
    simp [ensureMounted, hmnt]
  rcases hnm : normalizeName path with e | name
  · rw [deleteFs, hens] at hok
    simp [hnm] at hok
  rcases hfind : findIndex fs.entries name with _ | idx
  · rw [deleteFs, hens] at hok
    simp [hnm, hfind] at hok
  have hfind2 : findFirstIdx (fun e => e.used && entryName e == name) fs.entries = some idx :=
    hfind
  obtain ⟨hlt, hp, hbelow⟩ :=
    findFirstIdx_some_spec (fun e => e.used && entryName e == name) emptyEntry fs.entries idx
      hfind2
  have hused : (fs.entries.getD idx emptyEntry).used = true :=
    (Bool.and_eq_true _ _ |>.mp hp).1
  have husedE : ((fs.entries[idx]?).getD emptyEntry).used = true := by
    simpa using hused
  have hname_e : entryName (fs.entries.getD idx emptyEntry) = name := by
    have := (Bool.and_eq_true _ _ |>.mp hp).2
    simpa using this
  rcases hper : persistMetadata
      { fs with entries := fs.entries.set idx emptyEntry, fileCount := satSub16 fs.fileCount 1 }
      st with ⟨r, st2⟩
  cases r with
  | error e =>
    rw [deleteFs, hens] at hok
    simp [hnm, hfind, husedE, hper] at hok
  | ok u =>
    have hdel : deleteFs fs st path =
        (.ok (),
          { fs with entries := fs.entries.set idx emptyEntry, fileCount := satSub16 fs.fileCount 1 },
          st2) := by
      rw [deleteFs, hens]
      simp [hnm, hfind, husedE, hper]
    rw [hdel]
    have hens2 : ensureMounted
        { fs with entries := fs.entries.set idx emptyEntry, fileCount := satSub16 fs.fileCount 1 }
        st2 =
        (.ok (),
          { fs with entries := fs.entries.set idx emptyEntry, fileCount := satSub16 fs.fileCount 1 },
          st2) := by
      simp [ensureMounted, hmnt]
    have hnone : findIndex (fs.entries.set idx emptyEntry) name = none := by
      show findFirstIdx _ _ = none
      apply findFirstIdx_eq_none_of _ emptyEntry
      intro j hj
      have hjlen : j < fs.entries.length := by simpa using hj
      rcases Nat.lt_trichotomy j idx with hji | hji | hji
      · rw [getD_set_ne _ _ _ _ _ (by omega)]
        exact hbelow j hji
      · subst hji
        rw [getD_set_self _ _ _ _ hlt]
        simp [emptyEntry]
      · rw [getD_set_ne _ _ _ _ _ (by omega)]
        show ((fs.entries.getD j emptyEntry).used &&
          (entryName (fs.entries.getD j emptyEntry) == name)) = false
        cases hxval : ((fs.entries.getD j emptyEntry).used &&
            (entryName (fs.entries.getD j emptyEntry) == name)) with
        | false => rfl
        | true =>
          exfalso
          have hxu := (Bool.and_eq_true _ _ |>.mp hxval).1
          have hxn : entryName (fs.entries.getD j emptyEntry) = name := by
            simpa using (Bool.and_eq_true _ _ |>.mp hxval).2
          exact pairwise_getD emptyEntry fs.entries huniq idx j hji hjlen hused hxu
            (hname_e.trans hxn.symm)
    rw [deleteFs, hens2]
    simp [hnm, hnone]

/-- C7 witness: the amended statement on a mounted single-file volume. -/
theorem fs_delete_idempotent_witness :
    deleteFs (deleteFs fsSingle64 stReady64 [97]).2.1 (deleteFs fsSingle64 stReady64 [97]).2.2
        [97] =
      (.error .notFound, (deleteFs fsSingle64 stReady64 [97]).2.1,
        (deleteFs fsSingle64 stReady64 [97]).2.2) :=
  fs_delete_idempotent fsSingle64 stReady64 [97] (by decide) (by decide) (by decide)

/-! ### C2: metadata invariants -/

/-- `div_ceil` covers the data: `n ≤ ceil(n / 512) * 512`. -/
theorem le_ceil_mul_sector (n : Nat) : n ≤ (n + SECTOR_SIZE - 1) / SECTOR_SIZE * SECTOR_SIZE := by
  have hmod := Nat.mod_lt (n + SECTOR_SIZE - 1) (y := SECTOR_SIZE) (by decide)
  have hdiv := Nat.div_add_mod (n + SECTOR_SIZE - 1) SECTOR_SIZE
  simp only [SECTOR_SIZE] at *
  omega

/-- A nonempty payload needs at least one sector. -/
theorem one_le_ceil_sector (n : Nat) (h : 0 < n) : 1 ≤ (n + SECTOR_SIZE - 1) / SECTOR_SIZE := by
  rw [Nat.one_le_div_iff (by decide)]
  simp only [SECTOR_SIZE]
  omega

/-- The state `DiskFs::write` leaves behind after the start sector is
chosen: either untouched (the sector write failed) or the directory slot
refreshed and the file count bumped for a fresh slot. -/
theorem writeFinish_state (fs : DiskFsState) (st : Storage) (name data : List Nat)
    (needed idx start : Nat) :
    (writeFinish fs st name data needed idx start).2.1 = fs ∨
    (writeFinish fs st name data needed idx start).2.1 =
      writeUpdatedFs fs name data needed idx start := by
  unfold writeFinish
  split
  · exact Or.inl rfl
  · split
    · exact Or.inr rfl
    · exact Or.inr rfl

/-- The tail of `DiskFs::write` preserves the metadata invariants when the
chosen extent is in bounds and large enough for the data. -/
theorem writeFinish_inv (fs : DiskFsState) (st : Storage) (name data : List Nat)
    (needed idx start : Nat)
    (hinv : FsInv fs) (hidx : idx < fs.entries.length)
    (hs4 : 0 < needed → DATA_START_SECTOR ≤ start)
    (hst : start + needed ≤ fs.totalSectors)
    (hsz : data.length ≤ needed * SECTOR_SIZE) :
    FsInv (writeFinish fs st name data needed idx start).2.1 := by
  obtain ⟨h4nf, hnft, hfc, hlen, hent⟩ := hinv
  rcases writeFinish_state fs st name data needed idx start with hstate | hstate
  · rw [hstate]
    exact ⟨h4nf, hnft, hfc, hlen, hent⟩
  · rw [hstate]
    unfold writeUpdatedFs
    generalize hE : ({ used := true, name := (setName (fs.entries.getD idx emptyEntry) name).name, nameLen := (setName (fs.entries.getD idx emptyEntry) name).nameLen, sizeBytes := data.length, startSector := start, sectorCount := needed } : DiskEntry) = e1
    have he1u : e1.used = true := by rw [← hE]
    have he1start : e1.startSector = start := by rw [← hE]
    have he1count : e1.sectorCount = needed := by rw [← hE]
    have he1size : e1.sizeBytes = data.length := by rw [← hE]
    have hcount := usedCount_set e1 fs.entries idx hidx
    have huc_le : usedCount fs.entries ≤ MAX_FILES := hlen ▸ usedCount_le_length fs.entries
    rw [he1u] at hcount
    refine ⟨h4nf, hnft, ?_, by simpa using hlen, ?_⟩
    · cases husedOld : (fs.entries.getD idx emptyEntry).used with
      | true =>
        have husedOldE : ((fs.entries[idx]?).getD emptyEntry).used = true := by
          rw [← List.getD_eq_getElem?_getD]
          exact husedOld
        show (if (!true) = true then satAdd16 fs.fileCount 1 else fs.fileCount) =
          usedCount (fs.entries.set idx e1)
        rw [if_neg (by decide)]
        have h2 : usedCount (fs.entries.set idx e1) + 1 = usedCount fs.entries + 1 := by
          simpa [husedOldE] using hcount
        omega
      | false =>
        have husedOldE : ((fs.entries[idx]?).getD emptyEntry).used = false := by
          rw [← List.getD_eq_getElem?_getD]
          exact husedOld
        show (if (!false) = true then satAdd16 fs.fileCount 1 else fs.fileCount) =
          usedCount (fs.entries.set idx e1)
        rw [if_pos (by decide)]
        have huc16 : usedCount fs.entries ≤ 16 := huc_le
        have h17 : fs.fileCount + 1 ≤ 17 := by omega
        have hsat : satAdd16 fs.fileCount 1 = fs.fileCount + 1 :=
          Nat.min_eq_left (Nat.le_trans h17 (by norm_num [u16Max]))
        have h2 : usedCount (fs.entries.set idx e1) = usedCount fs.entries + 1 := by
          simpa [husedOldE] using hcount
        omega
    · intro e he hu
      rcases List.mem_or_eq_of_mem_set he with he2 | he2
      · exact hent e he2 hu
      · subst he2
        rw [he1start, he1count, he1size]
        exact ⟨fun h => hs4 h, hst, hsz⟩

/-- The start-sector selection of `DiskFs::write` (fresh slot, reuse, or a
new extent) keeps the metadata invariants. -/
theorem write_branch_inv (fs : DiskFsState) (st : Storage) (name data : List Nat)
    (idx n : Nat) (hidx : idx < fs.entries.length) (htot : fs.totalSectors < u64Max)
    (hinv : FsInv fs)
    (hn : n = if data = [] then 0 else (data.length + SECTOR_SIZE - 1) / SECTOR_SIZE) :
    FsInv
      ((if n = 0 then writeFinish fs st name data n idx 0
        else if (fs.entries.getD idx emptyEntry).used = true ∧
            n ≤ (fs.entries.getD idx emptyEntry).sectorCount ∧
            (fs.entries.getD idx emptyEntry).startSector ≠ 0 then
          writeFinish fs st name data n idx (fs.entries.getD idx emptyEntry).startSector
        else
          match allocateExtent fs n with
          | (.error e, fs2) => (.error e, fs2, st)
          | (.ok startSector, fs2) =>
            writeFinish fs2 st name data n idx startSector).2.1) := by
  by_cases h0 : n = 0
  · rw [if_pos h0]
    subst h0
    have hdata : data = [] := by
      by_contra hne
      rw [if_neg hne] at hn
      have : 0 < data.length := List.length_pos.mpr hne
      have := one_le_ceil_sector data.length this
      omega
    refine writeFinish_inv fs st name data 0 idx 0 hinv hidx (by omega) ?_ ?_
    · simpa using Nat.le_trans hinv.1 hinv.2.1
    · simp [hdata]
  · rw [if_neg h0]
    have hdata : data ≠ [] := by
      intro hd
      rw [if_pos hd] at hn
      exact h0 hn
    have hnval : n = (data.length + SECTOR_SIZE - 1) / SECTOR_SIZE := by
      rw [if_neg hdata] at hn
      exact hn
    have hsz : data.length ≤ n * SECTOR_SIZE := by
      rw [hnval]
      exact le_ceil_mul_sector _
    split
    · rename_i hre
      obtain ⟨hu, hcnt, hs0⟩ := hre
      have hmem := getD_mem emptyEntry fs.entries idx hidx
      have hold := hinv.2.2.2.2 _ hmem hu
      refine writeFinish_inv fs st name data n idx _ hinv hidx ?_ ?_ hsz
      · intro hpos
        exact hold.1 (by omega)
      · have := hold.2.1
        omega
    · rcases halloc : allocateExtent fs n with ⟨r, fs2⟩
      cases r with
      | error e =>
        have hfs2 : fs2 = fs := by
          simp only [allocateExtent] at halloc
          split at halloc <;> simp_all
        simpa [hfs2] using hinv
      | ok start =>
        have halloc2 := halloc
        simp only [allocateExtent] at halloc2
        split at halloc2
        · simp at halloc2
        · rename_i hfit
          simp only [Prod.mk.injEq, Except.ok.injEq] at halloc2
          obtain ⟨rfl, rfl⟩ := halloc2
          obtain ⟨h4nf, hnft, hfc, hlen, hent⟩ := hinv
          have hstop : satAdd64 fs.nextFreeSector n ≤ fs.totalSectors := by omega
          have hsum : fs.nextFreeSector + n ≤ fs.totalSectors := by
            simp only [satAdd64, u64Max] at hstop
            simp only [u64Max] at htot
            omega
          refine writeFinish_inv _ st name data n idx _
            ⟨?_, hstop, hfc, hlen, ?_⟩ hidx (fun _ => h4nf) hsum hsz
          · simp only [satAdd64, u64Max]
            simp only [DATA_START_SECTOR, DIR_START_SECTOR, DIR_SECTORS, DIR_BYTES,
              DIR_ENTRY_BYTES, MAX_FILES, SECTOR_SIZE] at h4nf ⊢
            omega
          · exact hent

set_option maxRecDepth 10000 in
/-- C2 counterexample: from a freshly mounted volume that satisfies the
invariants, writing the legal empty file `"a"` returns `Ok(0)` and leaves a
used entry whose `start_sector` (0) lies below `data_start` (4). -/
theorem fs_invariant_claim_cex :
    FsInv fsMounted64 ∧
    (writeFs fsMounted64 stReady64 [97] []).1 = .ok 0 ∧
    ((writeFs fsMounted64 stReady64 [97] []).2.1.entries.getD 0 emptyEntry).used = true ∧
    ((writeFs fsMounted64 stReady64 [97] []).2.1.entries.getD 0 emptyEntry).startSector <
      DATA_START_SECTOR :=
  ⟨by decide, by decide, by decide, by decide⟩

/-- C2 (amended): on a mounted volume (capacity below `u64::MAX` sectors)
the metadata invariants — `next_free_sector ∈ [data_start, total_sectors]`,
`file_count` equal to the number of used entries, and every used entry with
`sector_count > 0` starting at or after `data_start`, with
`start + count ≤ total_sectors` and `size ≤ count * 512` — are preserved by
`write`, `delete` and `format`, whatever result they return. -/
theorem fs_metadata_invariants_amended (fs : DiskFsState) (st : Storage) (path data : List Nat)
    (hmnt : fs.mounted = true) (htot : fs.totalSectors < u64Max) (hinv : FsInv fs) :
    FsInv (writeFs fs st path data).2.1 ∧
    FsInv (deleteFs fs st path).2.1 ∧
    FsInv (formatFs fs st).2.1 := by
  have hens : ensureMounted fs st = (.ok (), fs, st) := by simp [ensureMounted, hmnt]
  obtain ⟨h4nf, hnft, hfc, hlen, hent⟩ := hinv
  refine ⟨?_, ?_, ?_⟩
  · simp only [writeFs, hens]
    split
    · exact ⟨h4nf, hnft, hfc, hlen, hent⟩
    · rcases hnm : normalizeName path with e | name
      · simp only [hnm]
        exact ⟨h4nf, hnft, hfc, hlen, hent⟩
      · simp only [hnm]
        rcases hfind : findIndex fs.entries name with _ | idx
        · rcases hfree : findFreeIndex fs.entries with _ | idx
          · simp only [hfind, hfree]
            exact ⟨h4nf, hnft, hfc, hlen, hent⟩
          · have hidx : idx < fs.entries.length :=
              (findFirstIdx_some_spec _ emptyEntry fs.entries idx hfree).1
            simp only [hfind, hfree]
            exact write_branch_inv fs st name data idx _ hidx htot
              ⟨h4nf, hnft, hfc, hlen, hent⟩ rfl
        · have hidx : idx < fs.entries.length :=
            (findFirstIdx_some_spec _ emptyEntry fs.entries idx hfind).1
          simp only [hfind]
          exact write_branch_inv fs st name data idx _ hidx htot
            ⟨h4nf, hnft, hfc, hlen, hent⟩ rfl
  · simp only [deleteFs, hens]
    rcases hnm : normalizeName path with e | name
    · simp only [hnm]
      exact ⟨h4nf, hnft, hfc, hlen, hent⟩
    · simp only [hnm]
      rcases hfind : findIndex fs.entries name with _ | idx
      · simp only [hfind]
        exact ⟨h4nf, hnft, hfc, hlen, hent⟩
      · have hfind2 : findFirstIdx (fun e => e.used && entryName e == name) fs.entries =
            some idx := hfind
        obtain ⟨hidx, hp, _⟩ :=
          findFirstIdx_some_spec (fun e => e.used && entryName e == name) emptyEntry
            fs.entries idx hfind2
        have hused : (fs.entries.getD idx emptyEntry).used = true :=
          (Bool.and_eq_true _ _ |>.mp hp).1
        have husedE : ((fs.entries[idx]?).getD emptyEntry).used = true := by simpa using hused
        have hcount := usedCount_set emptyEntry fs.entries idx hidx
        rw [hused, show emptyEntry.used = false from rfl] at hcount
        simp at hcount
        have hfc2 : satSub16 fs.fileCount 1 = usedCount (fs.entries.set idx emptyEntry) := by
          simp only [satSub16]
          omega
        have hmem2 : ∀ e ∈ fs.entries.set idx emptyEntry, e.used = true →
            (0 < e.sectorCount → DATA_START_SECTOR ≤ e.startSector) ∧
            e.startSector + e.sectorCount ≤ fs.totalSectors ∧
            e.sizeBytes ≤ e.sectorCount * SECTOR_SIZE := by
          intro e he hu
          rcases List.mem_or_eq_of_mem_set he with he2 | he2
          · exact hent e he2 hu
          · subst he2
            simp [emptyEntry] at hu
        dsimp only
        rw [if_pos hused]
        rcases hper : persistMetadata
            { fs with
              entries := fs.entries.set idx emptyEntry
              fileCount := satSub16 fs.fileCount 1 }
            st with ⟨r2, st2⟩
        cases r2 <;> exact ⟨h4nf, hnft, hfc2, by simpa using hlen, hmem2⟩
  · have hbase : FsInv
        { fs with
          entries := List.replicate MAX_FILES emptyEntry
          fileCount := 0
          nextFreeSector := DATA_START_SECTOR } := by
      refine ⟨Nat.le_refl _, Nat.le_trans h4nf hnft,
        (by decide : (0 : Nat) = usedCount (List.replicate MAX_FILES emptyEntry)), by simp, ?_⟩
      intro e he hu
      have he2 := List.eq_of_mem_replicate he
      subst he2
      simp [emptyEntry] at hu
    unfold formatFs
    dsimp only
    split
    · simpa using hbase
    · simpa using hbase

/-- C2 witness: the amended invariants at a concrete mounted volume, a legal
path and a two-byte payload. -/
theorem fs_metadata_invariants_amended_witness :
    FsInv (writeFs fsMounted64 stReady64 [97] [104, 105]).2.1 ∧
    FsInv (deleteFs fsMounted64 stReady64 [97]).2.1 ∧
    FsInv (formatFs fsMounted64 stReady64).2.1 :=
  fs_metadata_invariants_amended fsMounted64 stReady64 [97] [104, 105] (by decide) (by decide)
    (by decide)

/-! ### C1: write/read round-trip -/

/-- Facts carried by a successful `write_sector`. -/
theorem writeSector_ok_facts (st : Storage) (sector : Nat) (buf : List Nat) (st' : Storage)
    (h : writeSector st sector buf = .ok st') :
    st'.ready = st.ready ∧ st'.capacitySectors = st.capacitySectors ∧ st.ready = true ∧
    sector < st.capacitySectors ∧ st'.disk sector = buf ∧
    ∀ s, s ≠ sector → st'.disk s = st.disk s := by
  unfold writeSector at h
  split at h
  · simp at h
  · split at h
    · simp at h
    · rename_i hready hcap
      simp only [Except.ok.injEq] at h
      subst h
      refine ⟨rfl, rfl, by revert hready; cases st.ready <;> simp, by omega, by simp, ?_⟩
      intro s hs
      simp [hs]

/-- The directory write loop only touches the directory sectors. -/
theorem writeDirSectors_facts :
    ∀ (remaining : Nat) (st : Storage) (dirBytes : List Nat) (sectorIdx : Nat)
      (r : Except FsError Unit) (st' : Storage),
      writeDirSectors st dirBytes sectorIdx remaining = (r, st') →
      st'.ready = st.ready ∧ st'.capacitySectors = st.capacitySectors ∧
      ∀ s, DIR_START_SECTOR + sectorIdx + remaining ≤ s → st'.disk s = st.disk s := by
  intro remaining
  induction remaining with
  | zero =>
    intro st dirBytes sectorIdx r st' h
    unfold writeDirSectors at h
    simp only [Prod.mk.injEq] at h
    obtain ⟨_, rfl⟩ := h
    exact ⟨rfl, rfl, fun s _ => rfl⟩
  | succ rem2 ih =>
    intro st dirBytes sectorIdx r st' h
    unfold writeDirSectors at h
    rcases hws : writeSector st (DIR_START_SECTOR + sectorIdx)
        ((dirBytes.drop (sectorIdx * SECTOR_SIZE)).take
          (min (sectorIdx * SECTOR_SIZE + SECTOR_SIZE) DIR_BYTES - sectorIdx * SECTOR_SIZE) ++
          List.replicate
            (SECTOR_SIZE -
              (min (sectorIdx * SECTOR_SIZE + SECTOR_SIZE) DIR_BYTES - sectorIdx * SECTOR_SIZE))
            0) with _ | st1
    · simp only [hws, Prod.mk.injEq] at h
      obtain ⟨_, rfl⟩ := h
      exact ⟨rfl, rfl, fun s _ => rfl⟩
    · simp only [hws] at h
      obtain ⟨hr1, hc1, hd1⟩ := ih st1 dirBytes (sectorIdx + 1) r st' h
      obtain ⟨hr0, hc0, _, _, _, hother⟩ := writeSector_ok_facts _ _ _ _ hws
      refine ⟨hr1.trans hr0, hc1.trans hc0, ?_⟩
      intro s hslarge
      rw [hd1 s (by omega), hother s (by omega)]

/-- `persist_metadata` never touches the data area and keeps the device
state. -/
theorem persistMetadata_facts (fs : DiskFsState) (st : Storage)
    (r : Except FsError Unit) (st' : Storage)
    (h : persistMetadata fs st = (r, st')) :
    st'.ready = st.ready ∧ st'.capacitySectors = st.capacitySectors ∧
    ∀ s, DATA_START_SECTOR ≤ s → st'.disk s = st.disk s := by
  unfold persistMetadata at h
  split at h
  · simp only [Prod.mk.injEq] at h
    obtain ⟨_, rfl⟩ := h
    exact ⟨rfl, rfl, fun s _ => rfl⟩
  · rcases hws : writeSector st SUPERBLOCK_SECTOR (superBytes fs) with _ | st1
    · rw [hws] at h
      simp only [Prod.mk.injEq] at h
      obtain ⟨_, rfl⟩ := h
      exact ⟨rfl, rfl, fun s _ => rfl⟩
    · rw [hws] at h
      obtain ⟨hr1, hc1, hd1⟩ := writeDirSectors_facts DIR_SECTORS st1 _ 0 r st' h
      obtain ⟨hr0, hc0, _, _, _, hother⟩ := writeSector_ok_facts _ _ _ _ hws
      refine ⟨hr1.trans hr0, hc1.trans hc0, ?_⟩
      intro s hs
      have h4 : DIR_START_SECTOR + 0 + DIR_SECTORS ≤ s := by
        simp only [DATA_START_SECTOR, DIR_START_SECTOR, DIR_SECTORS, DIR_BYTES, DIR_ENTRY_BYTES,
          MAX_FILES, SECTOR_SIZE] at hs ⊢
        omega
      rw [hd1 s h4, hother s (by
        simp only [DATA_START_SECTOR, DIR_START_SECTOR, DIR_SECTORS, DIR_BYTES, DIR_ENTRY_BYTES,
          MAX_FILES, SECTOR_SIZE, SUPERBLOCK_SECTOR] at hs ⊢
        omega)]

/-- A successful one-sector write loop: the data lands zero-padded in the
start sector and nothing else moves. -/
theorem writeLoop_one_spec (st : Storage) (startSector : Nat) (data : List Nat)
    (st' : Storage) (hlen : data.length ≤ SECTOR_SIZE)
    (h : writeLoop st startSector data 0 1 = (.ok (), st')) :
    st.ready = true ∧ startSector < st.capacitySectors ∧
    st'.ready = st.ready ∧ st'.capacitySectors = st.capacitySectors ∧
    st'.disk startSector = data ++ List.replicate (SECTOR_SIZE - data.length) 0 ∧
    ∀ s, s ≠ startSector → st'.disk s = st.disk s := by
  unfold writeLoop at h
  rcases hws : writeSector st (startSector + 0)
      ((data.drop (0 * SECTOR_SIZE)).take
        (min (0 * SECTOR_SIZE + SECTOR_SIZE) data.length - 0 * SECTOR_SIZE) ++
        List.replicate
          (SECTOR_SIZE - (min (0 * SECTOR_SIZE + SECTOR_SIZE) data.length - 0 * SECTOR_SIZE))
          0) with _ | st1
  · simp only [hws] at h
    simp at h
  · simp only [hws] at h
    unfold writeLoop at h
    simp only [Prod.mk.injEq] at h
    obtain ⟨_, rfl⟩ := h
    have hbuf : (data.drop (0 * SECTOR_SIZE)).take
        (min (0 * SECTOR_SIZE + SECTOR_SIZE) data.length - 0 * SECTOR_SIZE) ++
        List.replicate
          (SECTOR_SIZE - (min (0 * SECTOR_SIZE + SECTOR_SIZE) data.length - 0 * SECTOR_SIZE))
          0 = data ++ List.replicate (SECTOR_SIZE - data.length) 0 := by
      have hmin : min (0 * SECTOR_SIZE + SECTOR_SIZE) data.length = data.length :=
        Nat.min_eq_right (by simpa using hlen)
      rw [hmin]
      simp
    rw [hbuf] at hws
    obtain ⟨hr0, hc0, hready, hcap, hdisk, hother⟩ := writeSector_ok_facts _ _ _ _ hws
    refine ⟨hready, by simpa using hcap, hr0, hc0, by simpa using hdisk, ?_⟩
    intro s hs
    exact hother s (by simpa using hs)

/-- `normalize_name` yields a nonempty name of at most 48 bytes. -/
theorem normalizeName_ok_facts (path name : List Nat)
    (h : normalizeName path = .ok name) :
    name ≠ [] ∧ name.length ≤ MAX_FILE_NAME_BYTES := by
  simp only [normalizeName] at h
  split at h
  · simp at h
  · split at h
    · simp at h
    · rename_i hne hlen
      simp only [Except.ok.injEq] at h
      subst h
      refine ⟨?_, by omega⟩
      intro hc
      exact hne (Or.inl hc)

/-- An entry whose name fields come from `set_name` decodes back to the
name, provided the name fits and is valid UTF-8. -/
theorem entryName_setName_fields (e0 e : DiskEntry) (name : List Nat)
    (hlen : name.length ≤ MAX_FILE_NAME_BYTES) (hutf : isValidUtf8 name = true)
    (hn : e.name = (setName e0 name).name) (hnl : e.nameLen = (setName e0 name).nameLen) :
    entryName e = name := by
  have hmin : min name.length MAX_FILE_NAME_BYTES = name.length := Nat.min_eq_left hlen
  have hname : e.name = name ++ List.replicate (MAX_FILE_NAME_BYTES - name.length) 0 := by
    rw [hn]
    unfold setName
    simp [hmin]
  have hnl2 : e.nameLen = name.length := by
    rw [hnl]
    unfold setName
    simp [hmin]
  unfold entryName
  rw [hname, hnl2]
  have htake : (name ++ List.replicate (MAX_FILE_NAME_BYTES - name.length) 0).take name.length =
      name := by
    rw [List.take_append_of_le_length (Nat.le_refl _), List.take_length]
  rw [htake]
  simp [hutf]

/-- After `write` refreshes slot `idx`, `find_index` returns `idx` again
when nothing before the slot matched. -/
theorem findIndex_after_write (entries : List DiskEntry) (name : List Nat) (idx : Nat)
    (e1 : DiskEntry) (hidx : idx < entries.length)
    (hbelow : ∀ j, j < idx →
      ((entries.getD j emptyEntry).used && entryName (entries.getD j emptyEntry) == name) = false)
    (hname : entryName e1 = name) (hused : e1.used = true) :
    findIndex (entries.set idx e1) name = some idx := by
  unfold findIndex
  apply findFirstIdx_eq_some_of _ emptyEntry
  · simpa using hidx
  · rw [getD_set_self _ _ _ _ hidx]
    simp [hused, hname]
  · intro j hj
    rw [getD_set_ne _ _ _ _ _ (by omega)]
    exact hbelow j hj

/-- `read` of a zero-length file succeeds immediately. -/
theorem readFs_zero (fs1 : DiskFsState) (st2 : Storage) (path out name : List Nat) (idx : Nat)
    (hmnt1 : fs1.mounted = true) (hnm : normalizeName path = .ok name)
    (hfind1 : findIndex fs1.entries name = some idx)
    (hsz : (fs1.entries.getD idx emptyEntry).sizeBytes = 0) :
    readFs fs1 st2 path out = (.ok 0, out) := by
  unfold readFs
  rw [hmnt1]
  simp only [Bool.not_true, Bool.false_eq_true, if_false, hnm, hfind1]
  have hszE : ((fs1.entries[idx]?).getD emptyEntry).sizeBytes = 0 := by
    rw [← List.getD_eq_getElem?_getD]
    exact hsz
  simp [hszE]

/-- `read` of a one-sector file copies the stored bytes back. -/
theorem readFs_one (fs1 : DiskFsState) (st2 : Storage) (path out name data : List Nat)
    (idx : Nat)
    (hmnt1 : fs1.mounted = true) (hready : st2.ready = true)
    (hnm : normalizeName path = .ok name)
    (hfind1 : findIndex fs1.entries name = some idx)
    (hsz : (fs1.entries.getD idx emptyEntry).sizeBytes = data.length)
    (hcnt : (fs1.entries.getD idx emptyEntry).sectorCount = 1)
    (hst4 : DATA_START_SECTOR ≤ (fs1.entries.getD idx emptyEntry).startSector)
    (hseccap : (fs1.entries.getD idx emptyEntry).startSector < st2.capacitySectors)
    (hdisk : st2.disk (fs1.entries.getD idx emptyEntry).startSector =
      data ++ List.replicate (SECTOR_SIZE - data.length) 0)
    (hpos : 0 < data.length) (hle : data.length ≤ SECTOR_SIZE)
    (hout : data.length ≤ out.length) :
    readFs fs1 st2 path out = (.ok data.length, data ++ out.drop data.length) := by
  unfold readFs
  rw [hmnt1]
  simp only [Bool.not_true, Bool.false_eq_true, if_false, hnm, hfind1]
  rw [if_neg (by omega)]
  rw [if_neg (by omega)]
  rw [if_neg (by
    push_neg
    exact ⟨by omega, by omega⟩)]
  rw [hsz, hcnt]
  unfold readLoop
  have hrs : readSector st2 ((fs1.entries.getD idx emptyEntry).startSector + 0) =
      .ok (data ++ List.replicate (SECTOR_SIZE - data.length) 0) := by
    unfold readSector
    rw [hready]
    simp only [Bool.not_true, Bool.false_eq_true, if_false]
    rw [if_neg (by omega)]
    rw [Nat.add_zero, hdisk]
  simp only [hrs]
  unfold readLoop
  simp only [Nat.zero_mul, Nat.sub_zero, List.take_zero, List.nil_append]
  have hmin2 : min (0 + SECTOR_SIZE) data.length = data.length := by
    simp only [Nat.zero_add]
    exact Nat.min_eq_right hle
  rw [hmin2, List.take_append_of_le_length (Nat.le_refl _), List.take_length]

/-- Once `write` has picked slot `idx` and a start sector, a successful
write followed by `read` of the same path hands the data back. -/
theorem roundtrip_after_writeFinish
    (fs fsx : DiskFsState) (st : Storage) (path data out name : List Nat)
    (idx needed start : Nat)
    (hmntx : fsx.mounted = true)
    (hex : fsx.entries = fs.entries)
    (hidx : idx < fs.entries.length)
    (hnm : normalizeName path = .ok name)
    (hutf : isValidUtf8 name = true)
    (hnlen : name.length ≤ MAX_FILE_NAME_BYTES)
    (hbelow : ∀ j, j < idx →
      ((fs.entries.getD j emptyEntry).used &&
        entryName (fs.entries.getD j emptyEntry) == name) = false)
    (hle : data.length ≤ SECTOR_SIZE)
    (hout : data.length ≤ out.length)
    (hneeded : needed = if data = [] then 0 else 1)
    (hstart4 : data ≠ [] → DATA_START_SECTOR ≤ start)
    (hok : (writeFinish fsx st name data needed idx start).1 = .ok data.length) :
    (readFs (writeFinish fsx st name data needed idx start).2.1
        (writeFinish fsx st name data needed idx start).2.2 path out).1 = .ok data.length ∧
    ((readFs (writeFinish fsx st name data needed idx start).2.1
        (writeFinish fsx st name data needed idx start).2.2 path out).2).take data.length =
      data := by
  have hidxx : idx < fsx.entries.length := by rw [hex]; exact hidx
  rcases hwl : writeLoop st start data 0 needed with ⟨rl, st1⟩
  cases rl with
  | error e =>
    simp only [writeFinish, hwl] at hok
    simp at hok
  | ok u =>
    rcases hper : persistMetadata (writeUpdatedFs fsx name data needed idx start) st1
      with ⟨rp, st2⟩
    cases rp with
    | error e =>
      simp only [writeFinish, hwl, hper] at hok
      simp at hok
    | ok u2 =>
      have hfin : writeFinish fsx st name data needed idx start =
          (.ok data.length, writeUpdatedFs fsx name data needed idx start, st2) := by
        simp only [writeFinish, hwl, hper]
      rw [hfin]
      show (readFs (writeUpdatedFs fsx name data needed idx start) st2 path out).1 =
          .ok data.length ∧
        ((readFs (writeUpdatedFs fsx name data needed idx start) st2 path out).2).take
          data.length = data
      have hgetd : (writeUpdatedFs fsx name data needed idx start).entries.getD idx emptyEntry =
          { used := true
            name := (setName (fsx.entries.getD idx emptyEntry) name).name
            nameLen := (setName (fsx.entries.getD idx emptyEntry) name).nameLen
            sizeBytes := data.length
            startSector := start
            sectorCount := needed } := by
        show (fsx.entries.set idx _).getD idx emptyEntry = _
        exact getD_set_self _ _ _ _ hidxx
      have hnameE : entryName
          { used := true
            name := (setName (fsx.entries.getD idx emptyEntry) name).name
            nameLen := (setName (fsx.entries.getD idx emptyEntry) name).nameLen
            sizeBytes := data.length
            startSector := start
            sectorCount := needed } = name :=
        entryName_setName_fields (fsx.entries.getD idx emptyEntry) _ name hnlen hutf rfl rfl
      have hfind1 : findIndex (writeUpdatedFs fsx name data needed idx start).entries name =
          some idx := by
        show findIndex (fsx.entries.set idx _) name = some idx
        rw [hex]
        exact findIndex_after_write fs.entries name idx _ hidx hbelow hnameE rfl
      by_cases hd : data = []
      · subst hd
        have hrd := readFs_zero (writeUpdatedFs fsx name [] needed idx start) st2 path out
          name idx hmntx hnm hfind1 (by rw [hgetd]; rfl)
        rw [hrd]
        simp
      · have hn1 : needed = 1 := by rw [hneeded, if_neg hd]
        subst hn1
        obtain ⟨hready, hseccap, hr1, hc1, hdisk1, _⟩ :=
          writeLoop_one_spec st start data st1 hle hwl
        obtain ⟨hr2, hc2, hd2⟩ := persistMetadata_facts _ _ _ _ hper
        have hpos : 0 < data.length := List.length_pos.mpr hd
        have hst4 : DATA_START_SECTOR ≤ start := hstart4 hd
        have hrd := readFs_one (writeUpdatedFs fsx name data 1 idx start) st2 path out name
          data idx hmntx (by rw [hr2, hr1, hready])
          hnm hfind1 (by rw [hgetd]) (by rw [hgetd]) (by rw [hgetd]; exact hst4)
          (by rw [hgetd]; rw [hc2, hc1]; exact hseccap)
          (by rw [hgetd]
              show st2.disk start = data ++ List.replicate (SECTOR_SIZE - data.length) 0
              rw [hd2 start hst4]
              exact hdisk1)
          hpos hle hout
        rw [hrd]
        refine ⟨rfl, ?_⟩
        show (data ++ out.drop data.length).take data.length = data
        rw [List.take_append_of_le_length (Nat.le_refl _), List.take_length]

/-- C1: filesystem round-trip.  On a mounted volume satisfying the metadata
invariants, for every path whose normalized name is valid UTF-8 and every
payload: if `write(path, data)` returns `Ok(len(data))` then reading the
same path into a buffer at least `len(data)` long returns `Ok(len(data))`
and the first `len(data)` bytes of the buffer are `data`. -/
theorem fs_write_read_roundtrip
    (fs : DiskFsState) (st : Storage) (path data out name : List Nat)
    (hmnt : fs.mounted = true) (hinv : FsInv fs)
    (hnm : normalizeName path = .ok name) (hutf : isValidUtf8 name = true)
    (hout : data.length ≤ out.length)
    (hok : (writeFs fs st path data).1 = .ok data.length) :
    (readFs (writeFs fs st path data).2.1 (writeFs fs st path data).2.2 path out).1 =
      .ok data.length ∧
    ((readFs (writeFs fs st path data).2.1 (writeFs fs st path data).2.2 path out).2).take
      data.length = data := by
  obtain ⟨hne, hnlen⟩ := normalizeName_ok_facts path name hnm
  have hens : ensureMounted fs st = (.ok (), fs, st) := by
    simp [ensureMounted, hmnt]
  by_cases hbig : MAX_FILE_BYTES < data.length
  · exfalso
    simp only [writeFs, hens] at hok
    rw [if_pos hbig] at hok
    simp at hok
  · have hle : data.length ≤ SECTOR_SIZE := Nat.not_lt.mp hbig
    rcases hfindE : findIndex fs.entries name with _ | idx
    · rcases hfreeE : findFreeIndex fs.entries with _ | idx
      · exfalso
        simp only [writeFs, hens, hnm, hfindE, hfreeE] at hok
        rw [if_neg hbig] at hok
        simp at hok
      · have hfree2 : findFirstIdx (fun e => !e.used) fs.entries = some idx := hfreeE
        obtain ⟨hidx, _, _⟩ := findFirstIdx_some_spec _ emptyEntry fs.entries idx hfree2
        have hnone : ∀ x ∈ fs.entries, (x.used && entryName x == name) = false :=
          (findFirstIdx_none_iff _ _).mp hfindE
        have hbelow : ∀ j, j < idx →
            ((fs.entries.getD j emptyEntry).used &&
              entryName (fs.entries.getD j emptyEntry) == name) = false := by
          intro j hj
          exact hnone _ (getD_mem emptyEntry fs.entries j (Nat.lt_trans hj hidx))
        simp only [writeFs, hens, hnm, hfindE, hfreeE] at hok ⊢
        rw [if_neg hbig] at hok ⊢
        by_cases hd : data = []
        · have hneed0 : (if data = [] then 0
              else (data.length + SECTOR_SIZE - 1) / SECTOR_SIZE) = 0 := if_pos hd
          rw [hneed0] at hok ⊢
          rw [if_pos rfl] at hok ⊢
          exact roundtrip_after_writeFinish fs fs st path data out name idx 0 0 hmnt rfl
            hidx hnm hutf hnlen hbelow hle hout (if_pos hd).symm
            (fun hcon => absurd hd hcon) hok
        · have h512 : data.length ≤ 512 := hle
          have hposd : 0 < data.length := List.length_pos.mpr hd
          have hceil : (data.length + SECTOR_SIZE - 1) / SECTOR_SIZE = 1 := by
            simp only [SECTOR_SIZE]
            omega
          have hneed1 : (if data = [] then 0
              else (data.length + SECTOR_SIZE - 1) / SECTOR_SIZE) = 1 := by
            rw [if_neg hd, hceil]
          rw [hneed1] at hok ⊢
          rw [if_neg Nat.one_ne_zero] at hok ⊢
          by_cases hre : (fs.entries.getD idx emptyEntry).used = true ∧
              1 ≤ (fs.entries.getD idx emptyEntry).sectorCount ∧
              (fs.entries.getD idx emptyEntry).startSector ≠ 0
          · rw [if_pos hre] at hok ⊢
            obtain ⟨hu, hcnt1, _⟩ := hre
            have hmem := getD_mem emptyEntry fs.entries idx hidx
            have hst4 : DATA_START_SECTOR ≤ (fs.entries.getD idx emptyEntry).startSector :=
              (hinv.2.2.2.2 _ hmem hu).1 (Nat.lt_of_lt_of_le Nat.zero_lt_one hcnt1)
            exact roundtrip_after_writeFinish fs fs st path data out name idx 1
              ((fs.entries.getD idx emptyEntry).startSector) hmnt rfl hidx hnm hutf hnlen
              hbelow hle hout (by rw [if_neg hd]) (fun _ => hst4) hok
          · rw [if_neg hre] at hok ⊢
            rcases hallocE : allocateExtent fs 1 with ⟨ra, fs2⟩
            rw [hallocE] at hok
            cases ra with
            | error e => simp at hok
            | ok start =>
              have hA := hallocE
              simp only [allocateExtent] at hA
              split at hA
              · simp at hA
              · simp only [Prod.mk.injEq, Except.ok.injEq] at hA
                obtain ⟨hstart, hfs2⟩ := hA
                subst hfs2
                subst hstart
                exact roundtrip_after_writeFinish fs
                  { fs with nextFreeSector := satAdd64 fs.nextFreeSector 1 } st path data out
                  name idx 1 fs.nextFreeSector hmnt rfl hidx hnm hutf hnlen hbelow hle hout
                  (by rw [if_neg hd]) (fun _ => hinv.1) hok
    · have hfind2 : findFirstIdx (fun e => e.used && entryName e == name) fs.entries =
          some idx := hfindE
      obtain ⟨hidx, _, hbelow⟩ := findFirstIdx_some_spec _ emptyEntry fs.entries idx hfind2
      simp only [writeFs, hens, hnm, hfindE] at hok ⊢
      rw [if_neg hbig] at hok ⊢
      by_cases hd : data = []
      · have hneed0 : (if data = [] then 0
            else (data.length + SECTOR_SIZE - 1) / SECTOR_SIZE) = 0 := if_pos hd
        rw [hneed0] at hok ⊢
        rw [if_pos rfl] at hok ⊢
        exact roundtrip_after_writeFinish fs fs st path data out name idx 0 0 hmnt rfl
          hidx hnm hutf hnlen hbelow hle hout (if_pos hd).symm
          (fun hcon => absurd hd hcon) hok
      · have h512 : data.length ≤ 512 := hle
        have hposd : 0 < data.length := List.length_pos.mpr hd
        have hceil : (data.length + SECTOR_SIZE - 1) / SECTOR_SIZE = 1 := by
          simp only [SECTOR_SIZE]
          omega
        have hneed1 : (if data = [] then 0
            else (data.length + SECTOR_SIZE - 1) / SECTOR_SIZE) = 1 := by
          rw [if_neg hd, hceil]
        rw [hneed1] at hok ⊢
        rw [if_neg Nat.one_ne_zero] at hok ⊢
        by_cases hre : (fs.entries.getD idx emptyEntry).used = true ∧
            1 ≤ (fs.entries.getD idx emptyEntry).sectorCount ∧
            (fs.entries.getD idx emptyEntry).startSector ≠ 0
        · rw [if_pos hre] at hok ⊢
          obtain ⟨hu, hcnt1, _⟩ := hre
          have hmem := getD_mem emptyEntry fs.entries idx hidx
          have hst4 : DATA_START_SECTOR ≤ (fs.entries.getD idx emptyEntry).startSector :=
            (hinv.2.2.2.2 _ hmem hu).1 (Nat.lt_of_lt_of_le Nat.zero_lt_one hcnt1)
          exact roundtrip_after_writeFinish fs fs st path data out name idx 1
            ((fs.entries.getD idx emptyEntry).startSector) hmnt rfl hidx hnm hutf hnlen
            hbelow hle hout (by rw [if_neg hd]) (fun _ => hst4) hok
        · rw [if_neg hre] at hok ⊢
          rcases hallocE : allocateExtent fs 1 with ⟨ra, fs2⟩
          rw [hallocE] at hok
          cases ra with
          | error e => simp at hok
          | ok start =>
            have hA := hallocE
            simp only [allocateExtent] at hA
            split at hA
            · simp at hA
            · simp only [Prod.mk.injEq, Except.ok.injEq] at hA
              obtain ⟨hstart, hfs2⟩ := hA
              subst hfs2
              subst hstart
              exact roundtrip_after_writeFinish fs
                { fs with nextFreeSector := satAdd64 fs.nextFreeSector 1 } st path data out
                name idx 1 fs.nextFreeSector hmnt rfl hidx hnm hutf hnlen hbelow hle hout
                (by rw [if_neg hd]) (fun _ => hinv.1) hok

set_option maxRecDepth 10000 in
/-- Concrete round-trip witness: on a freshly formatted 64-sector volume,
writing `"hi"` to path `"a"` returns `Ok(2)` and reading it back into an
8-byte buffer yields `Ok(2)` with the bytes `"hi"` in front. -/
theorem fs_write_read_roundtrip_witness :
    (writeFs fsMounted64 stReady64 [97] [104, 105]).1 = .ok 2 ∧
    (readFs (writeFs fsMounted64 stReady64 [97] [104, 105]).2.1
        (writeFs fsMounted64 stReady64 [97] [104, 105]).2.2 [97]
        (List.replicate 8 0)).1 = .ok 2 ∧
    ((readFs (writeFs fsMounted64 stReady64 [97] [104, 105]).2.1
        (writeFs fsMounted64 stReady64 [97] [104, 105]).2.2 [97]
        (List.replicate 8 0)).2).take 2 = [104, 105] := by
  have h := fs_write_read_roundtrip fsMounted64 stReady64 [97] [104, 105]
    (List.replicate 8 0) [97] (by decide) (by decide) (by decide) (by decide)
    (by decide) (by decide)
  exact ⟨by decide, h.1, h.2⟩

/-- One step of the directory read loop, with the lets inlined. -/
theorem readDirBytes_succ (st : Storage) (sectorIdx remaining : Nat) :
    readDirBytes st sectorIdx (remaining + 1) =
      match readSector st (DIR_START_SECTOR + sectorIdx) with
      | .error _ => .error .storageIo
      | .ok sectorBuf =>
        match readDirBytes st (sectorIdx + 1) remaining with
        | .error e => .error e
        | .ok rest =>
          .ok (sectorBuf.take
            (min (sectorIdx * SECTOR_SIZE + SECTOR_SIZE) DIR_BYTES - sectorIdx * SECTOR_SIZE) ++
            rest) := rfl

/-- On a ready device with at least the metadata sectors, the directory read
loop returns exactly the three-sector directory image. -/
theorem readDirBytes_eq (st : Storage) (hrdy : st.ready = true)
    (hcap : DATA_START_SECTOR ≤ st.capacitySectors) :
    readDirBytes st 0 DIR_SECTORS = .ok (mountDirBytes st) := by
  have hcap4 : (4 : Nat) ≤ st.capacitySectors := hcap
  have hs : ∀ k, k < 4 → readSector st k = .ok (st.disk k) := by
    intro k hk
    unfold readSector
    rw [hrdy]
    simp only [Bool.not_true, Bool.false_eq_true, if_false]
    rw [if_neg (by omega)]
  have hs1 : readSector st 1 = .ok (st.disk 1) := hs 1 (by omega)
  have hs2 : readSector st 2 = .ok (st.disk 2) := hs 2 (by omega)
  have hs3 : readSector st 3 = .ok (st.disk 3) := hs 3 (by omega)
  have hm0 : min (0 * SECTOR_SIZE + SECTOR_SIZE) DIR_BYTES - 0 * SECTOR_SIZE = 512 := by decide
  have hm1 : min (1 * SECTOR_SIZE + SECTOR_SIZE) DIR_BYTES - 1 * SECTOR_SIZE = 512 := by decide
  have hm2 : min (2 * SECTOR_SIZE + SECTOR_SIZE) DIR_BYTES - 2 * SECTOR_SIZE = 128 := by decide
  have h3 : readDirBytes st 3 0 = .ok ([] : List Nat) := rfl
  have h2 : readDirBytes st 2 1 = .ok ((st.disk 3).take 128 ++ []) := by
    show readDirBytes st 2 (0 + 1) = _
    rw [readDirBytes_succ]
    simp only [DIR_START_SECTOR]
    rw [hm2]
    simp only [hs3, h3]
  have h1 : readDirBytes st 1 2 = .ok ((st.disk 2).take 512 ++ ((st.disk 3).take 128 ++ [])) := by
    show readDirBytes st 1 (1 + 1) = _
    rw [readDirBytes_succ]
    simp only [DIR_START_SECTOR]
    rw [hm1]
    simp only [hs2, h2]
  show readDirBytes st 0 (2 + 1) = _
  rw [readDirBytes_succ]
  simp only [DIR_START_SECTOR]
  rw [hm0]
  simp only [hs1, h1]
  simp only [mountDirBytes]

/-- On a ready device a sector write inside the capacity succeeds and
updates exactly that sector. -/
theorem writeSector_ready_ok (st : Storage) (s : Nat) (buf : List Nat)
    (hrdy : st.ready = true) (hs : s < st.capacitySectors) :
    writeSector st s buf =
      .ok { st with disk := fun x => if x = s then buf else st.disk x } := by
  unfold writeSector
  rw [hrdy]
  simp only [Bool.not_true, Bool.false_eq_true, if_false]
  rw [if_neg (Nat.not_le.mpr hs)]

/-- The directory write loop succeeds on a ready device whose capacity
covers the written sectors. -/
theorem writeDirSectors_ready_ok (db : List Nat) :
    ∀ (remaining sectorIdx : Nat) (st : Storage), st.ready = true →
      DIR_START_SECTOR + sectorIdx + remaining ≤ st.capacitySectors →
      ∃ st', writeDirSectors st db sectorIdx remaining = (.ok (), st') ∧
        st'.ready = true ∧ st'.capacitySectors = st.capacitySectors := by
  intro remaining
  induction remaining with
  | zero =>
    intro sectorIdx st hrdy _
    exact ⟨st, rfl, hrdy, rfl⟩
  | succ r ih =>
    intro sectorIdx st hrdy hb
    have hb' : DIR_START_SECTOR + sectorIdx + (r + 1) ≤ st.capacitySectors := hb
    have hlt : DIR_START_SECTOR + sectorIdx < st.capacitySectors := by omega
    rcases hws : writeSector st (DIR_START_SECTOR + sectorIdx)
        ((db.drop (sectorIdx * SECTOR_SIZE)).take
          (min (sectorIdx * SECTOR_SIZE + SECTOR_SIZE) DIR_BYTES - sectorIdx * SECTOR_SIZE) ++
          List.replicate
            (SECTOR_SIZE -
              (min (sectorIdx * SECTOR_SIZE + SECTOR_SIZE) DIR_BYTES - sectorIdx * SECTOR_SIZE))
            0)
      with e | st1
    · exfalso
      rw [writeSector_ready_ok st (DIR_START_SECTOR + sectorIdx) _ hrdy hlt] at hws
      exact absurd hws (by simp)
    · obtain ⟨hr1, hc1, _, _, _, _⟩ :=
        writeSector_ok_facts st (DIR_START_SECTOR + sectorIdx) _ st1 hws
      obtain ⟨st', hrec, hr', hc'⟩ := ih (sectorIdx + 1) st1 (by rw [hr1]; exact hrdy)
        (by rw [hc1]; omega)
      exact ⟨st', by simp only [writeDirSectors, hws]; exact hrec, hr', by rw [hc', hc1]⟩

/-- `persist_metadata` succeeds on a ready device with at least the
metadata sectors, preserving readiness and capacity. -/
theorem persistMetadata_ready_ok (fs : DiskFsState) (st : Storage)
    (hrdy : st.ready = true) (hcap : DATA_START_SECTOR ≤ st.capacitySectors) :
    ∃ st', persistMetadata fs st = (.ok (), st') ∧ st'.ready = true ∧
      st'.capacitySectors = st.capacitySectors := by
  have hcap4 : (4 : Nat) ≤ st.capacitySectors := hcap
  have hlt0 : SUPERBLOCK_SECTOR < st.capacitySectors := by
    show (0 : Nat) < st.capacitySectors
    omega
  have hws := writeSector_ready_ok st SUPERBLOCK_SECTOR (superBytes fs) hrdy hlt0
  obtain ⟨st', hw, hr, hc⟩ := writeDirSectors_ready_ok (buildDirBytes fs.entries) DIR_SECTORS 0
    { st with disk := fun x => if x = SUPERBLOCK_SECTOR then superBytes fs else st.disk x }
    hrdy (by show DIR_START_SECTOR + 0 + DIR_SECTORS ≤ st.capacitySectors
             show (1 : Nat) + 0 + 3 ≤ st.capacitySectors
             omega)
  refine ⟨st', ?_, hr, hc⟩
  unfold persistMetadata
  rw [hrdy]
  simp only [Bool.not_true, Bool.false_eq_true, if_false]
  simp only [hws]
  exact hw

/-- A flagged slot that violates one of the checks of `load_directory`
parses to `DiskCorrupt`. -/
theorem parseDirEntry_error_of_bad (dirBytes : List Nat) (i totalSectors : Nat)
    (hlen : dirBytes.length = DIR_BYTES) (hi : i < MAX_FILES)
    (hb : slotBad dirBytes totalSectors i) :
    parseDirEntry dirBytes i totalSectors = .error .diskCorrupt := by
  have hlen' : dirBytes.length = 1152 := hlen
  have hi' : i < 16 := hi
  have h32a : readU32 dirBytes (i * DIR_ENTRY_BYTES + 4) =
      .ok (u32At dirBytes (i * DIR_ENTRY_BYTES + 4)) := by
    unfold readU32
    rw [if_neg (by show ¬dirBytes.length < i * 72 + 4 + 4; omega)]
  have h64b : readU64 dirBytes (i * DIR_ENTRY_BYTES + 8) =
      .ok (u64At dirBytes (i * DIR_ENTRY_BYTES + 8)) := by
    unfold readU64
    rw [if_neg (by show ¬dirBytes.length < i * 72 + 8 + 8; omega)]
  have h32c : readU32 dirBytes (i * DIR_ENTRY_BYTES + 16) =
      .ok (u32At dirBytes (i * DIR_ENTRY_BYTES + 16)) := by
    unfold readU32
    rw [if_neg (by show ¬dirBytes.length < i * 72 + 16 + 4; omega)]
  obtain ⟨hflag, hrest⟩ := hb
  simp only [parseDirEntry, h32a, h64b, h32c]
  rw [if_neg hflag]
  rcases hrest with h1 | h1 | ⟨hcnt, hr⟩ | ⟨hcnt0, hsz⟩
  · rw [if_pos (Or.inl h1)]
  · rw [if_pos (Or.inr h1)]
  · by_cases hn : dirBytes.getD (i * DIR_ENTRY_BYTES + 1) 0 = 0 ∨
        MAX_FILE_NAME_BYTES < dirBytes.getD (i * DIR_ENTRY_BYTES + 1) 0
    · rw [if_pos hn]
    · rw [if_neg hn, if_pos hcnt]
      rcases hr with hr | hr | hr
      · rw [if_pos (Or.inl hr)]
      · rw [if_pos (Or.inr hr)]
      · by_cases hrng : u64At dirBytes (i * DIR_ENTRY_BYTES + 8) < DATA_START_SECTOR ∨
            totalSectors < satAdd64 (u64At dirBytes (i * DIR_ENTRY_BYTES + 8))
              (u32At dirBytes (i * DIR_ENTRY_BYTES + 16))
        · rw [if_pos hrng]
        · rw [if_neg hrng, if_pos hr]
  · by_cases hn : dirBytes.getD (i * DIR_ENTRY_BYTES + 1) 0 = 0 ∨
        MAX_FILE_NAME_BYTES < dirBytes.getD (i * DIR_ENTRY_BYTES + 1) 0
    · rw [if_pos hn]
    · rw [if_neg hn, if_neg (by rw [hcnt0]; omega), if_pos hsz]

/-- A slot that passes every check of `load_directory` parses successfully. -/
theorem parseDirEntry_ok_of_good (dirBytes : List Nat) (i totalSectors : Nat)
    (hlen : dirBytes.length = DIR_BYTES) (hi : i < MAX_FILES)
    (hg : ¬ slotBad dirBytes totalSectors i) :
    ∃ e, parseDirEntry dirBytes i totalSectors = .ok e := by
  have hlen' : dirBytes.length = 1152 := hlen
  have hi' : i < 16 := hi
  have h32a : readU32 dirBytes (i * DIR_ENTRY_BYTES + 4) =
      .ok (u32At dirBytes (i * DIR_ENTRY_BYTES + 4)) := by
    unfold readU32
    rw [if_neg (by show ¬dirBytes.length < i * 72 + 4 + 4; omega)]
  have h64b : readU64 dirBytes (i * DIR_ENTRY_BYTES + 8) =
      .ok (u64At dirBytes (i * DIR_ENTRY_BYTES + 8)) := by
    unfold readU64
    rw [if_neg (by show ¬dirBytes.length < i * 72 + 8 + 8; omega)]
  have h32c : readU32 dirBytes (i * DIR_ENTRY_BYTES + 16) =
      .ok (u32At dirBytes (i * DIR_ENTRY_BYTES + 16)) := by
    unfold readU32
    rw [if_neg (by show ¬dirBytes.length < i * 72 + 16 + 4; omega)]
  by_cases hflag : dirBytes.getD (i * DIR_ENTRY_BYTES) 0 = 0
  · exact ⟨emptyEntry, by simp only [parseDirEntry]; rw [if_pos hflag]⟩
  · have hnA : ¬(dirBytes.getD (i * DIR_ENTRY_BYTES + 1) 0 = 0 ∨
        MAX_FILE_NAME_BYTES < dirBytes.getD (i * DIR_ENTRY_BYTES + 1) 0) :=
      fun h => hg ⟨hflag, h.elim Or.inl (fun hx => Or.inr (Or.inl hx))⟩
    by_cases hcnt : 0 < u32At dirBytes (i * DIR_ENTRY_BYTES + 16)
    · have hnr : ¬(u64At dirBytes (i * DIR_ENTRY_BYTES + 8) < DATA_START_SECTOR ∨
          totalSectors < satAdd64 (u64At dirBytes (i * DIR_ENTRY_BYTES + 8))
            (u32At dirBytes (i * DIR_ENTRY_BYTES + 16))) := by
        intro h
        rcases h with h | h
        · exact hg ⟨hflag, Or.inr (Or.inr (Or.inl ⟨hcnt, Or.inl h⟩))⟩
        · exact hg ⟨hflag, Or.inr (Or.inr (Or.inl ⟨hcnt, Or.inr (Or.inl h)⟩))⟩
      have hns : ¬(u32At dirBytes (i * DIR_ENTRY_BYTES + 16) * SECTOR_SIZE <
          u32At dirBytes (i * DIR_ENTRY_BYTES + 4)) :=
        fun h => hg ⟨hflag, Or.inr (Or.inr (Or.inl ⟨hcnt, Or.inr (Or.inr h)⟩))⟩
      exact ⟨_, by
        simp only [parseDirEntry, h32a, h64b, h32c]
        rw [if_neg hflag, if_neg hnA, if_pos hcnt, if_neg hnr, if_neg hns]⟩
    · have hcz : u32At dirBytes (i * DIR_ENTRY_BYTES + 16) = 0 := Nat.eq_zero_of_not_pos hcnt
      have hns : ¬(u32At dirBytes (i * DIR_ENTRY_BYTES + 4) ≠ 0) :=
        fun h => hg ⟨hflag, Or.inr (Or.inr (Or.inr ⟨hcz, h⟩))⟩
      exact ⟨_, by
        simp only [parseDirEntry, h32a, h64b, h32c]
        rw [if_neg hflag, if_neg hnA, if_neg hcnt, if_neg hns]⟩

/-- The entry rebuilding loop fails with `DiskCorrupt` exactly on a bad
slot in its range, and succeeds when its range is clean. -/
theorem loadEntriesFrom_cases (dirBytes : List Nat) (totalSectors : Nat)
    (hlen : dirBytes.length = DIR_BYTES) :
    ∀ (remaining index : Nat), index + remaining ≤ MAX_FILES →
      ((∃ j, index ≤ j ∧ j < index + remaining ∧ slotBad dirBytes totalSectors j) →
        loadEntriesFrom dirBytes totalSectors index remaining = .error .diskCorrupt) ∧
      ((∀ j, index ≤ j → j < index + remaining → ¬ slotBad dirBytes totalSectors j) →
        ∃ p, loadEntriesFrom dirBytes totalSectors index remaining = .ok p) := by
  intro remaining
  induction remaining with
  | zero =>
    intro index _
    constructor
    · rintro ⟨j, hj1, hj2, _⟩
      omega
    · intro _
      exact ⟨([], 0), rfl⟩
  | succ r ih =>
    intro index hle
    have h16 : index + (r + 1) ≤ 16 := hle
    have hiMax : index < MAX_FILES := by
      show index < 16
      omega
    have hbound : index + 1 + r ≤ MAX_FILES := by
      show index + 1 + r ≤ 16
      omega
    constructor
    · rintro ⟨j, hj1, hj2, hbj⟩
      by_cases hbi : slotBad dirBytes totalSectors index
      · have hpe := parseDirEntry_error_of_bad dirBytes index totalSectors hlen hiMax hbi
        simp only [loadEntriesFrom, hpe]
      · have hji : index + 1 ≤ j := by
          rcases Nat.eq_or_lt_of_le hj1 with rfl | h
          · exact absurd hbj hbi
          · omega
        obtain ⟨e, hpe⟩ := parseDirEntry_ok_of_good dirBytes index totalSectors hlen hiMax hbi
        have hrec := (ih (index + 1) hbound).1 ⟨j, hji, by omega, hbj⟩
        simp only [loadEntriesFrom, hpe, hrec]
    · intro hnone
      obtain ⟨e, hpe⟩ := parseDirEntry_ok_of_good dirBytes index totalSectors hlen hiMax
        (hnone index (Nat.le_refl _) (by omega))
      obtain ⟨⟨rest, used⟩, hrec⟩ := (ih (index + 1) hbound).2
        (fun j hj1 hj2 => hnone j (by omega) (by omega))
      exact ⟨(e :: rest, if e.used then satAdd16 used 1 else used),
        by simp only [loadEntriesFrom, hpe, hrec]⟩

/-- `load_directory` on a well-formed ready device: it fails (with
`DiskCorrupt`) precisely when some slot is bad, and succeeds otherwise. -/
theorem loadDirectory_cases (fs : DiskFsState) (st : Storage)
    (hrdy : st.ready = true) (hcap : DATA_START_SECTOR ≤ st.capacitySectors)
    (hwf : ∀ s, (st.disk s).length = SECTOR_SIZE) :
    (loadDirectory fs st = .error .diskCorrupt ↔
      ∃ i, i < MAX_FILES ∧ slotBad (mountDirBytes st) fs.totalSectors i) ∧
    ((¬ ∃ i, i < MAX_FILES ∧ slotBad (mountDirBytes st) fs.totalSectors i) →
      ∃ fs2, loadDirectory fs st = .ok fs2) := by
  have hlen : (mountDirBytes st).length = DIR_BYTES := by
    simp [mountDirBytes, List.length_take, hwf, SECTOR_SIZE, DIR_BYTES, DIR_ENTRY_BYTES,
      MAX_FILES]
  have hcases := loadEntriesFrom_cases (mountDirBytes st) fs.totalSectors hlen MAX_FILES 0
    (by omega)
  constructor
  · constructor
    · intro herr
      rcases hle2 : loadEntriesFrom (mountDirBytes st) fs.totalSectors 0 MAX_FILES
        with e | ⟨entries, used⟩
      · by_contra hno
        push_neg at hno
        obtain ⟨p, hp⟩ := hcases.2 (fun j _ hj2 => hno j (by omega))
        rw [hle2] at hp
        exact absurd hp (by simp)
      · have hok : loadDirectory fs st = .ok { fs with entries := entries, fileCount := used } := by
          simp only [loadDirectory, readDirBytes_eq st hrdy hcap, hle2]
        rw [hok] at herr
        exact absurd herr (by simp)
    · rintro ⟨i, hi, hbad⟩
      have herr := hcases.1 ⟨i, by omega, by omega, hbad⟩
      simp only [loadDirectory, readDirBytes_eq st hrdy hcap, herr]
  · intro hno
    push_neg at hno
    obtain ⟨⟨entries, used⟩, hp⟩ := hcases.2 (fun j _ hj2 => hno j (by omega))
    exact ⟨{ fs with entries := entries, fileCount := used },
      by simp only [loadDirectory, readDirBytes_eq st hrdy hcap, hp]⟩

set_option maxRecDepth 10000 in
/-- C5 counterexample: `stBadStart` carries a matching magic, version 1, an
in-range allocation cursor, and a directory in which no slot satisfies any
of the corruption conditions the specification lists
(`start+count > total_sectors`, `size > count * 512`, `name_len ∉ [1, 48]`),
yet the mount rejects the volume with `DiskCorrupt` (the flagged entry
starts below the data area, a check the specification's list omits). -/
theorem fs_mount_claim_cex :
    (stBadStart.disk SUPERBLOCK_SECTOR).take MAGIC_BYTES.length = MAGIC_BYTES ∧
    u16At (stBadStart.disk SUPERBLOCK_SECTOR) 8 = FS_VERSION ∧
    DATA_START_SECTOR ≤ u64At (stBadStart.disk SUPERBLOCK_SECTOR) 16 ∧
    u64At (stBadStart.disk SUPERBLOCK_SECTOR) 16 ≤ fsUnmounted64.totalSectors ∧
    (∀ i ∈ List.range MAX_FILES,
      ¬ claimSlotBad (mountDirBytes stBadStart) fsUnmounted64.totalSectors i) ∧
    (mountOrFormat fsUnmounted64 stBadStart).1 = .error .diskCorrupt := by
  decide

/-- C5 (amended): on a ready device whose capacity covers the metadata
sectors, whose configured sector count exceeds the data start, and whose
sectors are 512 bytes long, mounting behaves as follows.  A magic mismatch
formats: the call returns `Ok`, the volume is mounted with a cleared
directory, `file_count = 0` and `next_free_sector = data_start`.  A magic
match yields `DiskCorrupt` exactly when the version differs from 1, the
allocation cursor lies outside `[data_start, total_sectors]`, or some
flagged directory slot violates a `load_directory` check: `name_len`
outside `[1, 48]`; with sectors, a start below the data area, an end
(saturating) past `total_sectors`, or `size > count * 512`; without
sectors, a nonzero size. -/
theorem fs_mount_amended (fs : DiskFsState) (st : Storage)
    (hrdy : st.ready = true) (hcap : DATA_START_SECTOR ≤ st.capacitySectors)
    (htot : DATA_START_SECTOR < fs.totalSectors)
    (hwf : ∀ s, (st.disk s).length = SECTOR_SIZE) :
    ((st.disk SUPERBLOCK_SECTOR).take MAGIC_BYTES.length ≠ MAGIC_BYTES →
      (mountOrFormat fs st).1 = .ok () ∧
      (mountOrFormat fs st).2.1.mounted = true ∧
      (mountOrFormat fs st).2.1.entries = List.replicate MAX_FILES emptyEntry ∧
      (mountOrFormat fs st).2.1.fileCount = 0 ∧
      (mountOrFormat fs st).2.1.nextFreeSector = DATA_START_SECTOR) ∧
    ((st.disk SUPERBLOCK_SECTOR).take MAGIC_BYTES.length = MAGIC_BYTES →
      ((mountOrFormat fs st).1 = .error .diskCorrupt ↔ mountCorrupt fs st)) := by
  have hcap4 : (4 : Nat) ≤ st.capacitySectors := hcap
  have htot' : ¬ fs.totalSectors ≤ DATA_START_SECTOR := Nat.not_le.mpr htot
  have hs0 : readSector st SUPERBLOCK_SECTOR = .ok (st.disk SUPERBLOCK_SECTOR) := by
    unfold readSector
    rw [hrdy]
    simp only [Bool.not_true, Bool.false_eq_true, if_false]
    rw [if_neg (by show ¬st.capacitySectors ≤ 0; omega)]
  have hwf0 : (st.disk SUPERBLOCK_SECTOR).length = 512 := hwf SUPERBLOCK_SECTOR
  have h64 : readU64 (st.disk SUPERBLOCK_SECTOR) 16 =
      .ok (u64At (st.disk SUPERBLOCK_SECTOR) 16) := by
    unfold readU64
    rw [if_neg (by omega)]
  have h16 : readU16 (st.disk SUPERBLOCK_SECTOR) 24 =
      .ok (u16At (st.disk SUPERBLOCK_SECTOR) 24) := by
    unfold readU16
    rw [if_neg (by omega)]
  constructor
  · intro hmagic
    have hform : mountOrFormat fs st = formatFs fs st := by
      unfold mountOrFormat
      rw [hrdy]
      simp only [Bool.not_true, Bool.false_eq_true, if_false]
      rw [if_neg htot']
      simp only [hs0]
      rw [if_pos hmagic]
    obtain ⟨st1, hper, _, _⟩ := persistMetadata_ready_ok
      { fs with
        entries := List.replicate MAX_FILES emptyEntry
        fileCount := 0
        nextFreeSector := DATA_START_SECTOR } st hrdy hcap
    rw [hform]
    simp only [formatFs, hper]
    exact ⟨by trivial, by trivial, by trivial, by trivial, by trivial⟩
  · intro hmagic
    have hnn : ¬ ((st.disk SUPERBLOCK_SECTOR).take MAGIC_BYTES.length ≠ MAGIC_BYTES) :=
      fun h => h hmagic
    by_cases hver : u16At (st.disk SUPERBLOCK_SECTOR) 8 = FS_VERSION
    · by_cases hrange : u64At (st.disk SUPERBLOCK_SECTOR) 16 < DATA_START_SECTOR ∨
          fs.totalSectors < u64At (st.disk SUPERBLOCK_SECTOR) 16
      · have hres : mountOrFormat fs st = (.error .diskCorrupt, fs, st) := by
          unfold mountOrFormat
          rw [hrdy]
          simp only [Bool.not_true, Bool.false_eq_true, if_false]
          rw [if_neg htot']
          simp only [hs0]
          rw [if_neg hnn, if_neg (show ¬u16At (st.disk SUPERBLOCK_SECTOR) 8 ≠ FS_VERSION from
            fun h => h hver)]
          simp only [h64, h16]
          rw [if_pos hrange]
        rw [hres]
        refine ⟨fun _ => ?_, fun _ => rfl⟩
        rcases hrange with h | h
        · exact Or.inr (Or.inl h)
        · exact Or.inr (Or.inr (Or.inl h))
      · obtain ⟨hiff, hok⟩ := loadDirectory_cases
          { fs with
            nextFreeSector := u64At (st.disk SUPERBLOCK_SECTOR) 16
            fileCount := u16At (st.disk SUPERBLOCK_SECTOR) 24 } st hrdy hcap hwf
        have e1 : ({ fs with
            nextFreeSector := u64At (st.disk SUPERBLOCK_SECTOR) 16
            fileCount := u16At (st.disk SUPERBLOCK_SECTOR) 24 } : DiskFsState).totalSectors =
            fs.totalSectors := rfl
        rw [e1] at hiff hok
        by_cases hbad : ∃ i, i < MAX_FILES ∧ slotBad (mountDirBytes st) fs.totalSectors i
        · have herr := hiff.mpr hbad
          have hres : mountOrFormat fs st = (.error .diskCorrupt,
              { fs with
                nextFreeSector := u64At (st.disk SUPERBLOCK_SECTOR) 16
                fileCount := u16At (st.disk SUPERBLOCK_SECTOR) 24 }, st) := by
            unfold mountOrFormat
            rw [hrdy]
            simp only [Bool.not_true, Bool.false_eq_true, if_false]
            rw [if_neg htot']
            simp only [hs0]
            rw [if_neg hnn, if_neg (show ¬u16At (st.disk SUPERBLOCK_SECTOR) 8 ≠ FS_VERSION from
              fun h => h hver)]
            simp only [h64, h16]
            rw [if_neg hrange]
            simp only [herr]
          rw [hres]
          refine ⟨fun _ => ?_, fun _ => rfl⟩
          obtain ⟨i, hi, hb⟩ := hbad
          exact Or.inr (Or.inr (Or.inr ⟨i, List.mem_range.mpr hi, hb⟩))
        · obtain ⟨fs2, hld⟩ := hok hbad
          have hres : mountOrFormat fs st = (.ok (), { fs2 with mounted := true }, st) := by
            unfold mountOrFormat
            rw [hrdy]
            simp only [Bool.not_true, Bool.false_eq_true, if_false]
            rw [if_neg htot']
            simp only [hs0]
            rw [if_neg hnn, if_neg (show ¬u16At (st.disk SUPERBLOCK_SECTOR) 8 ≠ FS_VERSION from
              fun h => h hver)]
            simp only [h64, h16]
            rw [if_neg hrange]
            simp only [hld]
          rw [hres]
          constructor
          · intro h
            exact absurd h (by simp)
          · intro hmc
            exfalso
            rcases hmc with h | h | h | h
            · exact h hver
            · exact hrange (Or.inl h)
            · exact hrange (Or.inr h)
            · obtain ⟨i, hmem, hb⟩ := h
              exact hbad ⟨i, List.mem_range.mp hmem, hb⟩
    · have hres : mountOrFormat fs st = (.error .diskCorrupt, fs, st) := by
        unfold mountOrFormat
        rw [hrdy]
        simp only [Bool.not_true, Bool.false_eq_true, if_false]
        rw [if_neg htot']
        simp only [hs0]
        rw [if_neg hnn, if_pos hver]
      rw [hres]
      exact ⟨fun _ => Or.inl hver, fun _ => rfl⟩

set_option maxRecDepth 10000 in
/-- Concrete instance of the amended mount behaviour: on `stBadStart` the
code-enforced corruption conditions hold and the mount indeed returns
`DiskCorrupt`. -/
theorem fs_mount_amended_witness :
    mountCorrupt fsUnmounted64 stBadStart ∧
    (mountOrFormat fsUnmounted64 stBadStart).1 = .error .diskCorrupt := by
  have hwf : ∀ s, (stBadStart.disk s).length = SECTOR_SIZE := by
    intro s
    simp only [stBadStart]
    split
    · decide
    · split
      · decide
      · decide
  have h := fs_mount_amended fsUnmounted64 stBadStart (by decide) (by decide) (by decide) hwf
  exact ⟨by decide, (h.2 (by decide)).mpr (by decide)⟩

/-- A successful `regionCandidate` pins the region kind, the bounds and
the page alignment of the produced cursor start. -/
theorem regionCandidate_some (r : MemoryRegion) (s e : Nat)
    (h : regionCandidate r = some (s, e)) :
    e = r.stop ∧ r.kind = MemoryRegionKind.usable ∧ s < e ∧ MIN_ALLOC_PHYS_ADDR ≤ s ∧
    r.start ≤ s ∧ s % PAGE_SIZE = 0 := by
  unfold regionCandidate at h
  split at h
  · simp at h
  · rename_i hk
    rcases ha : alignUp64 r.start PAGE_SIZE with _ | s0
    · rw [ha] at h
      simp at h
    · rw [ha] at h
      dsimp only at h
      split at h
      · simp at h
      · rename_i hlt
        simp only [Option.some.injEq, Prod.mk.injEq] at h
        obtain ⟨hs, he⟩ := h
        subst hs
        subst he
        have hge := alignUp64_ge ha
        have hmod : s0 % 4096 = 0 := by
          unfold alignUp64 at ha
          split at ha
          · simp at ha
          · dsimp only at ha
            split at ha
            · rename_i h0
              simp only [Option.some.injEq] at ha
              have h0' : r.start % 4096 = 0 := h0
              omega
            · split at ha
              · simp only [Option.some.injEq] at ha
                have ha' : r.start + (4096 - r.start % 4096) = s0 := ha
                have h0' : ¬ r.start % 4096 = 0 := by assumption
                omega
              · simp at ha
        have hminmod : MIN_ALLOC_PHYS_ADDR % PAGE_SIZE = 0 := by decide
        refine ⟨rfl, not_not.mp hk, by omega, Nat.le_max_right _ _,
          Nat.le_trans hge (Nat.le_max_left _ _), ?_⟩
        rcases Nat.le_total s0 MIN_ALLOC_PHYS_ADDR with hmx | hmx
        · rw [Nat.max_eq_right hmx]
          exact hminmod
        · rw [Nat.max_eq_left hmx]
          exact hmod

/-- A region slice too small for a page yields no frame. -/
theorem framesIn_nil (s e : Nat) (h : e < s + PAGE_SIZE) : framesIn s e = [] := by
  unfold framesIn
  have h0 : (e - s) / PAGE_SIZE = 0 := by
    show (e - s) / 4096 = 0
    have h' : e < s + 4096 := h
    omega
  rw [h0]
  rfl

/-- Peeling the first frame off a region slice that holds one. -/
theorem framesIn_cons (s e : Nat) (h : s + PAGE_SIZE ≤ e) :
    framesIn s e = s :: framesIn (s + PAGE_SIZE) e := by
  unfold framesIn
  have hdiv : (e - s) / PAGE_SIZE = (e - (s + PAGE_SIZE)) / PAGE_SIZE + 1 := by
    show (e - s) / 4096 = (e - (s + 4096)) / 4096 + 1
    have h' : s + 4096 ≤ e := h
    omega
  rw [hdiv, List.range_succ_eq_map]
  simp only [List.map_cons, Nat.mul_zero, Nat.add_zero, List.map_map]
  have hfun : ((fun k => s + PAGE_SIZE * k) ∘ Nat.succ) =
      (fun k => s + PAGE_SIZE + PAGE_SIZE * k) := by
    funext k
    show s + PAGE_SIZE * (k + 1) = s + PAGE_SIZE + PAGE_SIZE * k
    ring
  rw [hfun]

/-- Every frame of a region is page aligned, at or above 1 MiB, and lies
with its full page inside the (usable) region. -/
theorem mem_regionFrames (r : MemoryRegion) (a : Nat) (h : a ∈ regionFrames r) :
    r.kind = MemoryRegionKind.usable ∧ a % PAGE_SIZE = 0 ∧ MIN_ALLOC_PHYS_ADDR ≤ a ∧
    r.start ≤ a ∧ a + PAGE_SIZE ≤ r.stop := by
  rcases hrc : regionCandidate r with _ | ⟨s, e⟩
  · simp only [regionFrames, hrc] at h
    simp at h
  · simp only [regionFrames, hrc] at h
    obtain ⟨hestop, hku, hlt, hmin, hstart, hsmod⟩ := regionCandidate_some r s e hrc
    unfold framesIn at h
    rw [List.mem_map] at h
    obtain ⟨k, hk, rfl⟩ := h
    rw [List.mem_range] at hk
    have hk' : k < (e - s) / 4096 := hk
    have hsmod' : s % 4096 = 0 := hsmod
    refine ⟨hku, ?_, ?_, ?_, ?_⟩
    · show (s + 4096 * k) % 4096 = 0
      omega
    · exact Nat.le_trans hmin (Nat.le_add_right _ _)
    · exact Nat.le_trans hstart (Nat.le_add_right _ _)
    · show s + PAGE_SIZE * k + PAGE_SIZE ≤ r.stop
      rw [← hestop]
      show s + 4096 * k + 4096 ≤ e
      omega

/-- When the fused region scan finds nothing, the remaining regions
contribute no frames at all. -/
theorem findFitFrom_none_flat (l : List MemoryRegion) :
    (∀ r ∈ l, r.stop ≤ u64Max) → findFitFrom l = none →
      l.flatMap regionFrames = [] := by
  induction l with
  | nil => intro _ _; rfl
  | cons r rest ih =>
    intro hu h
    unfold findFitFrom at h
    rcases hrc : regionCandidate r with _ | ⟨s, e⟩
    · simp only [hrc, Option.map_eq_none'] at h
      show regionFrames r ++ rest.flatMap regionFrames = []
      rw [ih (fun x hx => hu x (List.mem_cons_of_mem _ hx)) h]
      have hrf : regionFrames r = [] := by simp only [regionFrames, hrc]
      rw [hrf]
      rfl
    · simp only [hrc] at h
      split at h
      · simp at h
      · rename_i hfit
        simp only [Option.map_eq_none'] at h
        obtain ⟨hestop, _, _, _, _, _⟩ := regionCandidate_some r s e hrc
        have hstop : e ≤ u64Max := hestop ▸ hu r (List.mem_cons_self _ _)
        have hnofit : e < s + PAGE_SIZE := by
          by_contra hge
          push_neg at hge
          exact hfit ⟨Nat.le_trans hge hstop, hge⟩
        show regionFrames r ++ rest.flatMap regionFrames = []
        rw [ih (fun x hx => hu x (List.mem_cons_of_mem _ hx)) h]
        have hrf : regionFrames r = [] := by
          simp only [regionFrames, hrc]
          exact framesIn_nil _ _ hnofit
        rw [hrf]
        rfl

/-- When the fused region scan finds a fitting region, the frame stream of
the remaining regions starts with that region's frames, and the cursor
advance skips exactly the preceding regions. -/
theorem findFitFrom_some_flat (l : List MemoryRegion) :
    ∀ k s e, (∀ r ∈ l, r.stop ≤ u64Max) → findFitFrom l = some (k, s, e) →
      l.flatMap regionFrames = framesIn s e ++ ((l.drop k).flatMap regionFrames) ∧
      s + PAGE_SIZE ≤ e ∧ e ≤ u64Max := by
  induction l with
  | nil =>
    intro k s e _ h
    simp [findFitFrom] at h
  | cons r rest ih =>
    intro k s e hu h
    unfold findFitFrom at h
    rcases hrc : regionCandidate r with _ | ⟨s0, e0⟩
    · simp only [hrc] at h
      rcases hrec : findFitFrom rest with _ | ⟨k1, s1, e1⟩
      · rw [hrec] at h
        simp at h
      · rw [hrec] at h
        simp only [Option.map_some', Option.some.injEq, Prod.mk.injEq] at h
        obtain ⟨hk, hs, he⟩ := h
        subst hk
        subst hs
        subst he
        obtain ⟨hflat, hfit, hle⟩ := ih k1 s1 e1
          (fun x hx => hu x (List.mem_cons_of_mem _ hx)) hrec
        refine ⟨?_, hfit, hle⟩
        show regionFrames r ++ rest.flatMap regionFrames = _
        have hrf : regionFrames r = [] := by simp only [regionFrames, hrc]
        rw [hrf, hflat]
        rfl
    · simp only [hrc] at h
      split at h
      · rename_i hfit
        simp only [Option.some.injEq, Prod.mk.injEq] at h
        obtain ⟨hk, hs, he⟩ := h
        subst hk
        subst hs
        subst he
        obtain ⟨hestop, _, _, _, _, _⟩ := regionCandidate_some r s0 e0 hrc
        refine ⟨?_, hfit.2, hestop ▸ hu r (List.mem_cons_self _ _)⟩
        show regionFrames r ++ rest.flatMap regionFrames =
          framesIn s0 e0 ++ ((r :: rest).drop 1).flatMap regionFrames
        have hrf : regionFrames r = framesIn s0 e0 := by simp only [regionFrames, hrc]
        rw [hrf]
        rfl
      · rename_i hfit
        rcases hrec : findFitFrom rest with _ | ⟨k1, s1, e1⟩
        · rw [hrec] at h
          simp at h
        · rw [hrec] at h
          simp only [Option.map_some', Option.some.injEq, Prod.mk.injEq] at h
          obtain ⟨hk, hs, he⟩ := h
          subst hk
          subst hs
          subst he
          obtain ⟨hflat, hfit1, hle1⟩ := ih k1 s1 e1
            (fun x hx => hu x (List.mem_cons_of_mem _ hx)) hrec
          obtain ⟨hestop, _, _, _, _, _⟩ := regionCandidate_some r s0 e0 hrc
          have hstop : e0 ≤ u64Max := hestop ▸ hu r (List.mem_cons_self _ _)
          have hnofit : e0 < s0 + PAGE_SIZE := by
            by_contra hge
            push_neg at hge
            exact hfit ⟨Nat.le_trans hge hstop, hge⟩
          refine ⟨?_, hfit1, hle1⟩
          show regionFrames r ++ rest.flatMap regionFrames = _
          have hrf : regionFrames r = [] := by
            simp only [regionFrames, hrc]
            exact framesIn_nil _ _ hnofit
          rw [hrf, hflat]
          rfl

/-- The allocation stream from any consistent allocator state: the frames
left in the current region, then the frames of the regions at or after the
cursor. -/
theorem allocRun_eq (regions : List MemoryRegion)
    (hu64 : ∀ r ∈ regions, r.stop ≤ u64Max) :
    ∀ (n c a e : Nat), (a = 0 → e = 0) → e ≤ u64Max →
      allocRun { regions := regions, regionCursor := c, nextAddr := a, currentRegionEnd := e } n =
        (framesIn a e ++ (regions.drop c).flatMap regionFrames).take n := by
  intro n
  induction n with
  | zero =>
    intro c a e _ _
    rfl
  | succ n ih =>
    intro c a e ha0 hle
    have hud : ∀ r ∈ regions.drop c, r.stop ≤ u64Max :=
      fun r hr => hu64 r (List.mem_of_mem_drop hr)
    by_cases hA : a = 0 ∨ e ≤ a
    · have hempty : framesIn a e = [] := by
        rcases hA with h | h
        · rw [h, ha0 h]
          exact framesIn_nil 0 0 (by show (0 : Nat) < 0 + 4096; omega)
        · exact framesIn_nil a e (by show e < a + 4096; omega)
      rcases hf : findFitFrom (regions.drop c) with _ | ⟨k, s2, e2⟩
      · have halloc : allocateFrame { regions := regions, regionCursor := c, nextAddr := a, currentRegionEnd := e } =
            (none, { regions := regions, regionCursor := regions.length, nextAddr := 0, currentRegionEnd := 0 }) := by
          simp only [allocateFrame]
          rw [if_pos hA]
          simp only [hf]
        simp only [allocRun, halloc]
        rw [hempty, findFitFrom_none_flat (regions.drop c) hud hf]
        rfl
      · obtain ⟨hflat, hfit2, hle2⟩ := findFitFrom_some_flat (regions.drop c) k s2 e2 hud hf
        have halloc : allocateFrame { regions := regions, regionCursor := c, nextAddr := a, currentRegionEnd := e } =
            (some s2, { regions := regions, regionCursor := c + k, nextAddr := s2 + PAGE_SIZE, currentRegionEnd := e2 }) := by
          simp only [allocateFrame]
          rw [if_pos hA]
          simp only [hf]
        simp only [allocRun, halloc]
        rw [hempty]
        simp only [List.nil_append]
        rw [hflat, framesIn_cons s2 e2 hfit2]
        simp only [List.cons_append, List.take_succ_cons]
        have hdrop : (regions.drop c).drop k = regions.drop (c + k) := by
          rw [List.drop_drop, Nat.add_comm]
        rw [hdrop]
        rw [ih (c + k) (s2 + PAGE_SIZE) e2
          (fun h0 => absurd h0 (by show ¬s2 + 4096 = 0; omega)) hle2]
    · by_cases hB : u64Max < a + PAGE_SIZE ∨ e < a + PAGE_SIZE
      · have hnofit : e < a + PAGE_SIZE := by
          rcases hB with h | h
          · show e < a + 4096
            have h' : u64Max < a + 4096 := h
            omega
          · exact h
        have hempty : framesIn a e = [] := framesIn_nil a e hnofit
        rcases hf : findFitFrom (regions.drop c) with _ | ⟨k, s2, e2⟩
        · have halloc : allocateFrame { regions := regions, regionCursor := c, nextAddr := a, currentRegionEnd := e } =
              (none, { regions := regions, regionCursor := regions.length, nextAddr := 0, currentRegionEnd := 0 }) := by
            simp only [allocateFrame]
            rw [if_neg hA, if_pos hB]
            simp only [hf]
          simp only [allocRun, halloc]
          rw [hempty, findFitFrom_none_flat (regions.drop c) hud hf]
          rfl
        · obtain ⟨hflat, hfit2, hle2⟩ := findFitFrom_some_flat (regions.drop c) k s2 e2 hud hf
          have halloc : allocateFrame { regions := regions, regionCursor := c, nextAddr := a, currentRegionEnd := e } =
              (some s2, { regions := regions, regionCursor := c + k, nextAddr := s2 + PAGE_SIZE, currentRegionEnd := e2 }) := by
            simp only [allocateFrame]
            rw [if_neg hA, if_pos hB]
            simp only [hf]
          simp only [allocRun, halloc]
          rw [hempty]
          simp only [List.nil_append]
          rw [hflat, framesIn_cons s2 e2 hfit2]
          simp only [List.cons_append, List.take_succ_cons]
          have hdrop : (regions.drop c).drop k = regions.drop (c + k) := by
            rw [List.drop_drop, Nat.add_comm]
          rw [hdrop]
          rw [ih (c + k) (s2 + PAGE_SIZE) e2
            (fun h0 => absurd h0 (by show ¬s2 + 4096 = 0; omega)) hle2]
      · have halloc : allocateFrame { regions := regions, regionCursor := c, nextAddr := a, currentRegionEnd := e } =
            (some a, { regions := regions, regionCursor := c, nextAddr := a + PAGE_SIZE, currentRegionEnd := e }) := by
          simp only [allocateFrame]
          rw [if_neg hA, if_neg hB]
        push_neg at hB
        have hfit : a + PAGE_SIZE ≤ e := hB.2
        simp only [allocRun, halloc]
        rw [framesIn_cons a e hfit]
        simp only [List.cons_append, List.take_succ_cons]
        rw [ih c (a + PAGE_SIZE) e
          (fun h0 => absurd h0 (by show ¬a + 4096 = 0; omega)) hle]

/-- On a sorted, pairwise-disjoint memory map the canonical frame stream
never repeats an address. -/
theorem canonicalFrames_nodup :
    ∀ (regions : List MemoryRegion),
      regions.Pairwise (fun x y => x.stop ≤ y.start) →
      (canonicalFrames regions).Nodup := by
  intro regions
  induction regions with
  | nil =>
    intro _
    exact List.nodup_nil
  | cons r rest ih =>
    intro hsorted
    rw [List.pairwise_cons] at hsorted
    obtain ⟨hhead, htail⟩ := hsorted
    show (regionFrames r ++ rest.flatMap regionFrames).Nodup
    rw [List.nodup_append]
    refine ⟨?_, ih htail, ?_⟩
    · rcases hrc : regionCandidate r with _ | ⟨s, e⟩
      · simp only [regionFrames, hrc]
        exact List.nodup_nil
      · simp only [regionFrames, hrc]
        unfold framesIn
        refine List.Nodup.map ?_ (List.nodup_range _)
        intro x y hxy
        have hxy' : s + 4096 * x = s + 4096 * y := hxy
        omega
    · intro a har haf
      rw [List.mem_flatMap] at haf
      obtain ⟨r2, hr2, har2⟩ := haf
      obtain ⟨_, _, _, hstart2, _⟩ := mem_regionFrames r2 a har2
      obtain ⟨_, _, _, _, hstop1⟩ := mem_regionFrames r a har
      have hrel := hhead r2 hr2
      have hcontra : a + PAGE_SIZE ≤ a :=
        Nat.le_trans (Nat.le_trans hstop1 hrel) hstart2
      have hcontra' : a + 4096 ≤ a := hcontra
      omega

/-- C6: frame allocator.  For every memory map whose regions end within the
64-bit address space and are sorted and pairwise disjoint: the successive
results of `allocate_frame` are exactly the canonical frame stream (regions
in map order, ascending addresses within a region, `None` from the moment
the stream is exhausted, since the run equals the full stream for every
length); every streamed frame is 4096-byte aligned, starts at or above
1 MiB, and lies with its whole page inside a `Usable` region; and no frame
ever appears twice. -/
theorem frame_allocator_spec (regions : List MemoryRegion) (n : Nat)
    (hu64 : ∀ r ∈ regions, r.stop ≤ u64Max)
    (hsorted : regions.Pairwise (fun x y => x.stop ≤ y.start)) :
    allocRun (frameAllocNew regions) n = (canonicalFrames regions).take n ∧
    (∀ a ∈ canonicalFrames regions,
      a % PAGE_SIZE = 0 ∧ MIN_ALLOC_PHYS_ADDR ≤ a ∧
      ∃ r ∈ regions, r.kind = MemoryRegionKind.usable ∧ r.start ≤ a ∧
        a + PAGE_SIZE ≤ r.stop) ∧
    (canonicalFrames regions).Nodup := by
  refine ⟨?_, ?_, canonicalFrames_nodup regions hsorted⟩
  · have h := allocRun_eq regions hu64 n 0 0 0 (fun _ => rfl) (Nat.zero_le _)
    unfold frameAllocNew
    rw [h, framesIn_nil 0 0 (by show (0 : Nat) < 0 + 4096; omega)]
    simp only [List.nil_append, List.drop_zero]
    rfl
  · intro a ha
    rw [show canonicalFrames regions = regions.flatMap regionFrames from rfl,
      List.mem_flatMap] at ha
    obtain ⟨r, hr, har⟩ := ha
    obtain ⟨hku, hmod, hmin, hstart, hstop⟩ := mem_regionFrames r a har
    exact ⟨hmod, hmin, r, hr, hku, hstart, hstop⟩

/-- Concrete instance of the frame allocator behaviour on a two-region map:
three calls yield the two usable frames above 1 MiB and then stop. -/
theorem frame_allocator_spec_witness :
    (∀ r ∈ memRegionsFixture, r.stop ≤ u64Max) ∧
    allocRun (frameAllocNew memRegionsFixture) 3 = (canonicalFrames memRegionsFixture).take 3 ∧
    (canonicalFrames memRegionsFixture).Nodup := by
  have h := frame_allocator_spec memRegionsFixture 3 (by decide) (by decide)
  exact ⟨by decide, h.1, h.2.2⟩

end ArrOst
